import Mathlib

/-! Views over array expressions (`xtensor/xview.hpp`).

A shallow embedding of the view layer: the three resolver functions
(`integral_count`, `integral_count_before`, `integral_skip`), the view
(`xview`: construction of the cached shape, `dimension`, element access) and
its stepper (`xview_stepper`).

Conventions of the embedding.

* A pack of selector types `S...` is the list of its `std::is_integral` flags
  (`true` for an integral slot).  The terminating `void` of
  `integral_count_impl<S..., void>` and `integral_skip_impl<S..., void>` is the
  empty list.
* `size_type` and `std::size_t` values are natural numbers.  Addition,
  subtraction and multiplication of such values wrap modulo `SIZE_MOD`
  (`size_add`, `size_sub`, `size_mul`); so does the addition `1 + ...` of
  `integral_skip_impl`.  The one addition that is kept over the naturals is
  that of `integral_count_impl`, whose result is at most its argument `i`
  (`integral_count_impl_le`) and so never wraps.
* Code that is undefined behaviour or ill-formed in C++ (reading a tuple slot
  or a vector element that does not exist, asking an integral selector for a
  step size) returns `none`.
-/

namespace xt

/-! ## Machine arithmetic on `size_type` -/

/-- Number of values of `size_type` (taken to be a 64-bit `std::size_t`). -/
def SIZE_MOD : Nat := 18446744073709551616

/-- Addition `a + b` of two `size_type` values: it wraps around. -/
def size_add (a b : Nat) : Nat := (a + b) % SIZE_MOD

/-- Subtraction `a - b` of two `size_type` values: it wraps around. -/
def size_sub (a b : Nat) : Nat := (a + (SIZE_MOD - b % SIZE_MOD)) % SIZE_MOD

/-- Multiplication `a * b` of two `size_type` values: it wraps around. -/
def size_mul (a b : Nat) : Nat := (a * b) % SIZE_MOD

/-! ## Resolver functions -/

namespace detail

/-- The static member `integral_count_impl<T, S...>::count(i)`; the empty list
is the specialisation `integral_count_impl<void>`, which returns `i`. -/
def integral_count_impl : List Bool → Nat → Nat
  | [], i => i
  | t :: s, i =>
    if i ≠ 0 then integral_count_impl s (i - 1) + (if t then 1 else 0) else 0

/-- The static member `integral_skip_impl<T, S...>::count(i)`, with its two
private helpers `count_impl()` (taken when `i == 0`) and `count_impl(i)`
inlined; the empty list is the specialisation `integral_skip_impl<void>`.
The additions `1 + ...` are those of `std::size_t` and wrap. -/
def integral_skip_impl : List Bool → Nat → Nat
  | [], i => i
  | t :: s, i =>
    if i = 0 then
      (if t then size_add 1 (integral_skip_impl s 0) else 0)
    else
      size_add 1 (if t then integral_skip_impl s i else integral_skip_impl s (i - 1))

end detail

/-- The function `integral_count<S...>()`. -/
def integral_count (S : List Bool) : Nat :=
  detail.integral_count_impl S S.length

/-- The function `integral_count_before<S...>(i)`. -/
def integral_count_before (S : List Bool) (i : Nat) : Nat :=
  detail.integral_count_impl S i

/-- The function `integral_skip<S...>(i)`. -/
def integral_skip (S : List Bool) (i : Nat) : Nat :=
  detail.integral_skip_impl S i

/-! ## Selectors -/

/-- Interface the view requires of a ranged selector, a slice type deriving
from `xslice<T>` (the header `xslice.hpp` is not part of the sources, so the
three members are taken as parameters): `size()`, `step_size(i)` and the call
operator that maps a view coordinate to a base coordinate. -/
structure Slice where
  size : Nat
  step_size : Nat → Nat
  call : Nat → Nat

/-- One slot of the selector tuple `std::tuple<S...>`: either a value of an
integral type, already converted to `size_type`, or a slice. -/
inductive Selector where
  | integral (value : Nat)
  | ranged (slice : Slice)

/-- The trait `std::is_integral<std::remove_reference_t<T>>::value` of a slot. -/
def Selector.is_integral : Selector → Bool
  | .integral _ => true
  | .ranged _ => false

/-- The pack `S...` of a selector tuple, as its list of integral flags. -/
def kinds (slices : List Selector) : List Bool :=
  slices.map Selector.is_integral

/-- Modelled from the spec: the half-open range selector `[lo, hi)` of
`xslice.hpp`, which is not among the sources: it yields `hi - lo` elements, maps
the view coordinate `i` to the base coordinate `lo + i` and has step
multiplier 1. -/
def xrange (lo hi : Nat) : Slice :=
  { size := hi - lo, step_size := fun _ => 1, call := fun i => lo + i }

/-- The overloaded `get_size(s)` used by the lambdas of the view: `size()` for
a slice.  The overload for an integral selector is declared in `xslice.hpp`,
not among the sources; the value it returns is the parameter `squeeze_size`. -/
def get_size (squeeze_size : Nat) : Selector → Nat
  | .integral _ => squeeze_size
  | .ranged s => s.size

/-- The lambda `[](const auto& s) { return s.step_size(0); }`: an integral
selector has no member `step_size`, so there is no result for it. -/
def step_size_func : Selector → Option Nat
  | .integral _ => none
  | .ranged s => some (s.step_size 0)

/-- Modelled from the spec: `apply(index, func, tuple)` of `xutils.hpp`, which
is not among the sources: the result of `func` on the tuple element at the
run-time position `index`; there is no element at or past the tuple size. -/
def apply {β : Type} (index : Nat) (func : Selector → Option β)
    (slices : List Selector) : Option β :=
  match slices[index]? with
  | some s => func s
  | none => none

/-- Modelled from the spec: `argument<I>(args...)` of `xutils.hpp`, which is
not among the sources: the `I`-th argument of the pack; there is none at or
past the pack size. -/
def argument (I : Nat) (args : List Nat) : Option Nat :=
  args[I]?

/-- A pack expansion `f(I)...` whose elements may each fail to exist: the list
of all results when every one exists. -/
def expand_pack {β : Type} : List (Option β) → Option (List β)
  | [] => some []
  | none :: _ => none
  | some b :: rest =>
    match expand_pack rest with
    | some bs => some (b :: bs)
    | none => none

/-! ## The underlying expression -/

/-- Interface the view requires of the underlying expression `E` and of its
stepper type `E::stepper` (neither is among the sources; all members are taken
as parameters).  `α` is the element type, `σ` the state of the stepper of `E`.
The members whose names begin with `it_` are those of the stepper: `operator*`, `step(dim, n)`,
`step_back(dim, n)`, `to_end()` and `operator==`. -/
structure Expression (α σ : Type) where
  dimension : Nat
  shape : List Nat
  elem : List Nat → α
  stepper_begin : List Nat → σ
  stepper_end : List Nat → σ
  it_deref : σ → α
  it_step : σ → Nat → Nat → σ
  it_step_back : σ → Nat → Nat → σ
  it_to_end : σ → σ
  it_eq : σ → σ → Bool

/-! ## The view -/

/-- The class `xview<E, S...>`: the referenced expression `m_e`, the selector
tuple `m_slices` and the cached shape `m_shape`.  The field `addr` is the
address of the view object, the value of a pointer to it. -/
structure xview (α σ : Type) where
  addr : Nat
  m_e : Expression α σ
  m_slices : List Selector
  m_shape : List Nat

/-- The member `xview::dimension()`. -/
def xview.dimension {α σ : Type} (v : xview α σ) : Nat :=
  size_sub v.m_e.dimension (integral_count (kinds v.m_slices))

/-- The body of the loop of the constructor for the axis `i`: the value that
is assigned to `m_shape[i]`. -/
def xview.shape_entry {α σ : Type} (squeeze_size : Nat) (v : xview α σ)
    (i : Nat) : Option Nat :=
  let index := integral_skip (kinds v.m_slices) i
  if index < v.m_slices.length then
    apply index (fun s => some (get_size squeeze_size s)) v.m_slices
  else
    v.m_e.shape[index]?

/-- The loop `for (i = ...; i != dimension(); ++i) m_shape[i] = ...` of the
constructor, with `n` iterations left, the counter at `i` and the vector
`shape` so far; a write past the end of the vector has no result. -/
def xview.fill_shape {α σ : Type} (squeeze_size : Nat) (v : xview α σ) :
    Nat → Nat → List Nat → Option (List Nat)
  | 0, _, shape => some shape
  | n + 1, i, shape =>
    match xview.shape_entry squeeze_size v i with
    | none => none
    | some extent =>
      if i < shape.length then
        xview.fill_shape squeeze_size v n (i + 1) (shape.set i extent)
      else none

/-- The constructor `xview(E& e, SL&&... slices)`: the members are
set, `m_shape` is resized to `dimension()` (new elements are zero) and
the loop fills it. -/
def xview.ctor {α σ : Type} (squeeze_size : Nat) (addr : Nat)
    (e : Expression α σ) (slices : List Selector) : Option (xview α σ) :=
  let v : xview α σ := { addr := addr, m_e := e, m_slices := slices, m_shape := [] }
  match xview.fill_shape squeeze_size v v.dimension 0 (List.replicate v.dimension 0) with
  | some shape => some { v with m_shape := shape }
  | none => none

/-- The member `xview::shape()`. -/
def xview.shape {α σ : Type} (v : xview α σ) : List Nat :=
  v.m_shape

/-- The member `xview::slices()`. -/
def xview.slices {α σ : Type} (v : xview α σ) : List Selector :=
  v.m_slices

/-- The two overloads of `xview::sliced_access<I>`: a slice is called on
`argument<I>(args...)`, a squeeze value is returned as it is. -/
def xview.sliced_access (I : Nat) (sel : Selector) (args : List Nat) : Option Nat :=
  match sel with
  | .ranged s =>
    match argument I args with
    | some a => some (s.call a)
    | none => none
  | .integral squeeze => some squeeze

/-- The two overloads of `xview::index<I>`, chosen by `I < sizeof...(S)`.  The
template argument `I - integral_count_before<S...>(I)` never wraps, since
`integral_count_before<S...>(I) <= I` for every `I`
(`integral_count_before_le`). -/
def xview.index {α σ : Type} (v : xview α σ) (I : Nat) (args : List Nat) : Option Nat :=
  if I < v.m_slices.length then
    match v.m_slices[I]? with
    | some sel =>
      xview.sliced_access (I - integral_count_before (kinds v.m_slices) I) sel args
    | none => none
  else
    argument (I - integral_count_before (kinds v.m_slices) I) args

/-- The multi-index `index<I>(args...)...` that `access_impl` passes to the
underlying expression, for the index sequence `0, ..., n - 1`. -/
def xview.base_index {α σ : Type} (v : xview α σ) (n : Nat) (args : List Nat) :
    Option (List Nat) :=
  expand_pack ((List.range n).map (fun I => v.index I args))

/-- The member `xview::access_impl(std::index_sequence<I...>, args...)`, for
the index sequence `0, ..., n - 1`. -/
def xview.access_impl {α σ : Type} (v : xview α σ) (n : Nat) (args : List Nat) :
    Option α :=
  match v.base_index n args with
  | some idx => some (v.m_e.elem idx)
  | none => none

/-- The member `xview::operator()(args...)`. -/
def xview.operator_call {α σ : Type} (v : xview α σ) (args : List Nat) : Option α :=
  v.access_impl (args.length + integral_count (kinds v.m_slices)) args

/-- The member `xview::is_trivial_broadcast(strides)`. -/
def xview.is_trivial_broadcast {α σ : Type} (_v : xview α σ) (_strides : List Nat) : Bool :=
  false

/-! ## The stepper -/

/-- The class `xview_stepper<E, S...>`: the pointer `p_view` (the pointed-to
view, whose field `addr` is the value of the pointer), the stepper `m_it` of the
underlying expression and `m_offset`. -/
structure xview_stepper (α σ : Type) where
  p_view : xview α σ
  m_it : σ
  m_offset : Nat

/-- The constructor `xview_stepper(view, it, offset)`: it stores its three
arguments; its body holds the comment `TODO` and nothing else. -/
def xview_stepper.ctor {α σ : Type} (view : xview α σ) (it : σ) (offset : Nat) :
    xview_stepper α σ :=
  { p_view := view, m_it := it, m_offset := offset }

/-- The member `xview::stepper_begin(shape)`. -/
def xview.stepper_begin {α σ : Type} (v : xview α σ) (shape : List Nat) :
    xview_stepper α σ :=
  let offset := size_sub shape.length v.dimension
  xview_stepper.ctor v (v.m_e.stepper_begin v.m_e.shape) offset

/-- The member `xview::stepper_end(shape)`. -/
def xview.stepper_end {α σ : Type} (v : xview α σ) (shape : List Nat) :
    xview_stepper α σ :=
  let offset := size_sub shape.length v.dimension
  xview_stepper.ctor v (v.m_e.stepper_end v.m_e.shape) offset

/-- The member `xview_stepper::operator*`. -/
def xview_stepper.deref {α σ : Type} (st : xview_stepper α σ) : α :=
  st.p_view.m_e.it_deref st.m_it

/-- The member `xview_stepper::step(dim, n)`. -/
def xview_stepper.step {α σ : Type} (st : xview_stepper α σ) (dim n : Nat) :
    Option (xview_stepper α σ) :=
  if dim ≥ st.m_offset then
    let index := integral_skip (kinds st.p_view.slices) dim
    match apply index step_size_func st.p_view.slices with
    | some step_size =>
      some { st with m_it := st.p_view.m_e.it_step st.m_it index (size_mul step_size n) }
    | none => none
  else some st

/-- The member `xview_stepper::step_back(dim, n)`. -/
def xview_stepper.step_back {α σ : Type} (st : xview_stepper α σ) (dim n : Nat) :
    Option (xview_stepper α σ) :=
  if dim ≥ st.m_offset then
    let index := integral_skip (kinds st.p_view.slices) dim
    match apply index step_size_func st.p_view.slices with
    | some step_size =>
      some { st with m_it := st.p_view.m_e.it_step_back st.m_it index (size_mul step_size n) }
    | none => none
  else some st

/-- The member `xview_stepper::reset(dim)`. -/
def xview_stepper.reset {α σ : Type} (squeeze_size : Nat) (st : xview_stepper α σ)
    (dim : Nat) : Option (xview_stepper α σ) :=
  if dim ≥ st.m_offset then
    let index := integral_skip (kinds st.p_view.slices) dim
    match apply index (fun s => some (get_size squeeze_size s)) st.p_view.slices with
    | some size =>
      match apply index step_size_func st.p_view.slices with
      | some step_size =>
        some { st with
          m_it := st.p_view.m_e.it_step_back st.m_it index (size_mul step_size size) }
      | none => none
    | none => none
  else some st

/-- The member `xview_stepper::to_end()`. -/
def xview_stepper.to_end {α σ : Type} (st : xview_stepper α σ) : xview_stepper α σ :=
  { st with m_it := st.p_view.m_e.it_to_end st.m_it }

/-- The member `xview_stepper::equal(rhs)`: the pointers, the underlying
steppers and the offsets are compared. -/
def xview_stepper.equal {α σ : Type} (lhs rhs : xview_stepper α σ) : Bool :=
  lhs.p_view.addr == rhs.p_view.addr && lhs.p_view.m_e.it_eq lhs.m_it rhs.m_it
    && lhs.m_offset == rhs.m_offset

/-- Application of a member of the stepper `count` times in a row, each on the
result of the one before. -/
def repeat_member {β : Type} (member : β → Option β) : Nat → β → Option β
  | 0, b => some b
  | count + 1, b =>
    match member b with
    | some b1 => repeat_member member count b1
    | none => none

/-- The laws of a stepper of the underlying expression under which moves
along one axis add up and a backward move undoes a forward move of the same
length. -/
def lawful_stepper {α σ : Type} (e : Expression α σ) : Prop :=
  (∀ c dim, e.it_step c dim 0 = c)
  ∧ (∀ c dim a b, e.it_step (e.it_step c dim a) dim b = e.it_step c dim (a + b))
  ∧ (∀ c dim a, e.it_step_back (e.it_step c dim a) dim a = c)

/-- The list positions of the slots of a list of selector kinds that are not
integral, in increasing order. -/
def noninteger_slots (S : List Bool) : List Nat :=
  (List.range S.length).filter (fun p => S[p]? == some false)

/-- The recursion of `integral_skip_impl` over the unbounded naturals, where
no addition wraps.  It is used to reason about `integral_skip_impl`, whose
result is this one modulo `SIZE_MOD`. -/
def skip_position : List Bool → Nat → Nat
  | [], i => i
  | t :: s, i =>
    if i = 0 then
      (if t then 1 + skip_position s 0 else 0)
    else
      1 + (if t then skip_position s i else skip_position s (i - 1))

/-! ## A dense array as the underlying expression -/

/-- Modelled from the spec: the stepper of the base array, which is not among
the sources: a cursor over the storage of the base object, here one coordinate
for each base axis, and a flag for the end sentinel. -/
structure Cursor where
  pos : List Int
  at_end : Bool
deriving DecidableEq

/-- Addition of `delta` to the coordinate number `dim` of a list of
coordinates. -/
def shift_coordinate : List Int → Nat → Int → List Int
  | [], _, _ => []
  | x :: rest, 0, delta => (x + delta) :: rest
  | x :: rest, dim + 1, delta => x :: shift_coordinate rest dim delta

/-- Move of the coordinate of axis `dim` of a cursor by `delta`. -/
def Cursor.move (c : Cursor) (dim : Nat) (delta : Int) : Cursor :=
  { c with pos := shift_coordinate c.pos dim delta }

/-- Modelled from the spec: a base array of the given shape with elements
`data`, which is not among the sources: it supplies its dimension, its shape,
access by multi-index, and a stepper that begins at the first element (all
coordinates zero), moves along one axis at a time and reads the element under
the cursor. -/
def dense_array {α : Type} (shape : List Nat) (data : List Nat → α) :
    Expression α Cursor :=
  { dimension := shape.length
    shape := shape
    elem := data
    stepper_begin := fun s => { pos := List.replicate s.length 0, at_end := false }
    stepper_end := fun s => { pos := List.replicate s.length 0, at_end := true }
    it_deref := fun c => data (c.pos.map Int.toNat)
    it_step := fun c dim n => c.move dim n
    it_step_back := fun c dim n => c.move dim (-(n : Int))
    it_to_end := fun c => { c with at_end := true }
    it_eq := fun a b => decide (a = b) }

/-! ## Views used as concrete inputs -/

/-- The view with selectors `(1, range(0, 4))` over a dense array of shape
`(3, 4)` whose element at a multi-index is that multi-index. -/
def squeeze_view : xview (List Nat) Cursor :=
  { addr := 0
    m_e := dense_array [3, 4] id
    m_slices := [Selector.integral 1, Selector.ranged (xrange 0 4)]
    m_shape := [4] }

/-- The view with no selectors over a dense array of shape `(2, 2)` whose
element at a multi-index is that multi-index. -/
def passthrough_view : xview (List Nat) Cursor :=
  { addr := 0
    m_e := dense_array [2, 2] id
    m_slices := []
    m_shape := [2, 2] }

/-- The view with the single selector `range(1, 3)` over a dense array of
shape `(4)` whose element at a multi-index is that multi-index. -/
def shifted_view : xview (List Nat) Cursor :=
  { addr := 0
    m_e := dense_array [4] id
    m_slices := [Selector.ranged (xrange 1 3)]
    m_shape := [2] }

/-- A slice of 3 elements with step multiplier 2: it maps the view coordinate
`i` to the base coordinate `2 * i`. -/
def stride_two : Slice :=
  { size := 3, step_size := fun _ => 2, call := fun i => 2 * i }

/-- The view with the single selector `stride_two` over a dense array of
shape `(6)` whose element at a multi-index is that multi-index. -/
def strided_view : xview (List Nat) Cursor :=
  { addr := 0
    m_e := dense_array [6] id
    m_slices := [Selector.ranged stride_two]
    m_shape := [3] }

/-- The same selector and base as `strided_view`, in a second view object at
another address. -/
def strided_view_twin : xview (List Nat) Cursor :=
  { addr := 1
    m_e := dense_array [6] id
    m_slices := [Selector.ranged stride_two]
    m_shape := [3] }

/-- The view with the selectors `(stride_two, range(0, 3))` over a dense array
of shape `(6, 3)` whose element at a multi-index is that multi-index. -/
def two_range_view : xview (List Nat) Cursor :=
  { addr := 0
    m_e := dense_array [6, 3] id
    m_slices := [Selector.ranged stride_two, Selector.ranged (xrange 0 3)]
    m_shape := [3, 3] }

/-! ## Comparison of steppers and the iterator entry points -/

/-- The free function `operator==` on two steppers. -/
def xview_stepper.operator_eq {α σ : Type} (lhs rhs : xview_stepper α σ) : Bool :=
  lhs.equal rhs

/-- The free function `operator!=` on two steppers. -/
def xview_stepper.operator_ne {α σ : Type} (lhs rhs : xview_stepper α σ) : Bool :=
  !(lhs.equal rhs)

/-- Modelled from the spec: the iterator adaptor `xiterator` of `xiterator.hpp`,
which is not among the sources: it wraps a stepper and a shape; only the two
arguments of its constructor are kept. -/
structure xiterator (α σ : Type) where
  stepper : xview_stepper α σ
  shape : List Nat

/-- The member `xview::xbegin(shape)`. -/
def xview.xbegin {α σ : Type} (v : xview α σ) (shape : List Nat) : xiterator α σ :=
  { stepper := v.stepper_begin shape, shape := shape }

/-- The member `xview::xend(shape)`. -/
def xview.xend {α σ : Type} (v : xview α σ) (shape : List Nat) : xiterator α σ :=
  { stepper := v.stepper_end shape, shape := shape }

/-- The member `xview::begin()`. -/
def xview.begin {α σ : Type} (v : xview α σ) : xiterator α σ :=
  v.xbegin v.shape

/-- The member `xview::end()`. -/
def xview.end_ {α σ : Type} (v : xview α σ) : xiterator α σ :=
  v.xend v.shape

/-! ## Positions that are not integral -/

/-- The position `k` of a list of selector kinds is not integral; a position
at or past the end of the list counts as not integral. -/
def noninteger_at (S : List Bool) (k : Nat) : Bool :=
  !(S.getD k false)

/-- The number of positions before `k` that are not integral. -/
def noninteger_before (S : List Bool) (k : Nat) : Nat :=
  ((List.range k).filter (noninteger_at S)).length

/-! ## The resolver functions -/

theorem integral_count_impl_le (S : List Bool) :
    ∀ i, detail.integral_count_impl S i ≤ i := by
  induction S with
  | nil => intro i; simp [detail.integral_count_impl]
  | cons t s ih =>
    intro i
    cases i with
    | zero => simp [detail.integral_count_impl]
    | succ j =>
      have := ih j
      cases t <;> simp [detail.integral_count_impl] <;> omega

theorem integral_count_impl_take (S : List Bool) :
    ∀ i, i ≤ S.length → detail.integral_count_impl S i = (S.take i).count true := by
  induction S with
  | nil => intro i hi; simp at hi; subst hi; simp [detail.integral_count_impl]
  | cons t s ih =>
    intro i hi
    cases i with
    | zero => simp [detail.integral_count_impl]
    | succ j =>
      have hj : j ≤ s.length := by simpa using hi
      have := ih j hj
      cases t <;> simp [detail.integral_count_impl, List.count_cons, this]

theorem integral_count_impl_past (S : List Bool) :
    ∀ i, S.length ≤ i →
      detail.integral_count_impl S i = S.count true + (i - S.length) := by
  induction S with
  | nil => intro i _; simp [detail.integral_count_impl]
  | cons t s ih =>
    intro i hi
    cases i with
    | zero => simp at hi
    | succ j =>
      have hj : s.length ≤ j := by simpa using hi
      have := ih j hj
      cases t
      · simp [detail.integral_count_impl, List.count_cons, this]
      · simp [detail.integral_count_impl, List.count_cons, this]; omega

theorem noninteger_slots_cons (t : Bool) (s : List Bool) :
    noninteger_slots (t :: s)
      = (if t then [] else [0]) ++ (noninteger_slots s).map Nat.succ := by
  unfold noninteger_slots
  rw [List.length_cons, List.range_succ_eq_map, List.filter_cons, List.filter_map]
  cases t <;> simp [Function.comp_def]

theorem noninteger_slots_length (S : List Bool) :
    (noninteger_slots S).length + S.count true = S.length := by
  induction S with
  | nil => simp [noninteger_slots]
  | cons t s ih =>
    rw [noninteger_slots_cons]
    cases t <;> simp [List.count_cons] <;> omega

theorem skip_position_nth (S : List Bool) :
    ∀ i, i < (noninteger_slots S).length →
      (noninteger_slots S)[i]? = some (skip_position S i) := by
  induction S with
  | nil => intro i hi; simp [noninteger_slots] at hi
  | cons t s ih =>
    intro i hi
    rw [noninteger_slots_cons] at hi ⊢
    cases t with
    | true =>
      simp only [if_true, List.nil_append, List.length_map] at hi ⊢
      rw [List.getElem?_map, ih i hi]
      cases i <;> simp [skip_position] <;> omega
    | false =>
      cases i with
      | zero => simp [skip_position]
      | succ j =>
        have hj : j < (noninteger_slots s).length := by simpa using hi
        simp [skip_position, List.getElem?_map, ih j hj]
        omega

theorem skip_position_past (S : List Bool) :
    ∀ i, (noninteger_slots S).length ≤ i →
      skip_position S i = S.length + (i - (noninteger_slots S).length) := by
  induction S with
  | nil => intro i _; simp [skip_position, noninteger_slots]
  | cons t s ih =>
    intro i hi
    rw [noninteger_slots_cons] at hi ⊢
    cases t with
    | true =>
      simp only [if_true, List.nil_append, List.length_map] at hi ⊢
      have := ih i hi
      cases i <;> simp_all [skip_position] <;> omega
    | false =>
      cases i with
      | zero => simp at hi
      | succ j =>
        have hj : (noninteger_slots s).length ≤ j := by simpa using hi
        have := ih j hj
        simp [skip_position, this]
        omega

theorem mem_noninteger_slots (S : List Bool) (p : Nat) :
    p ∈ noninteger_slots S ↔ S[p]? = some false := by
  unfold noninteger_slots
  simp only [List.mem_filter, List.mem_range, beq_iff_eq]
  constructor
  · exact fun h => h.2
  · intro h
    refine ⟨?_, h⟩
    by_contra hp
    rw [List.getElem?_eq_none (by omega)] at h
    cases h

/-! ## Lemmas for the view and the stepper -/

theorem integral_count_eq_count (S : List Bool) :
    integral_count S = S.count true := by
  unfold integral_count
  rw [integral_count_impl_take S S.length (Nat.le_refl _), List.take_length]

theorem integral_count_kinds (slices : List Selector) :
    integral_count (kinds slices) = slices.countP Selector.is_integral := by
  rw [integral_count_eq_count, kinds, List.count_eq_countP, List.countP_map]
  congr 1
  funext s
  cases s <;> rfl

theorem integral_count_le_length (S : List Bool) : integral_count S ≤ S.length := by
  rw [integral_count_eq_count]
  exact List.count_le_length true S

theorem integral_count_before_le (S : List Bool) (i : Nat) :
    integral_count_before S i ≤ i :=
  integral_count_impl_le S i

theorem skip_position_ge (S : List Bool) :
    ∀ i, i ≤ skip_position S i := by
  induction S with
  | nil => intro i; simp [skip_position]
  | cons t s ih =>
    intro i
    cases i with
    | zero => simp
    | succ j =>
      have h1 := ih j
      have h2 := ih (j + 1)
      cases t <;> simp [skip_position] <;> omega

theorem skip_position_le (S : List Bool) :
    ∀ i, skip_position S i ≤ i + S.count true := by
  induction S with
  | nil => intro i; simp [skip_position]
  | cons t s ih =>
    intro i
    have h0 := ih 0
    cases i with
    | zero =>
      cases t with
      | false => simp [skip_position]
      | true => simp [skip_position, List.count_cons]; omega
    | succ j =>
      have h1 := ih j
      have h2 := ih (j + 1)
      cases t <;> simp [skip_position, List.count_cons] <;> omega

theorem skip_position_slot (S : List Bool) (i : Nat)
    (h : skip_position S i < S.length) : S[skip_position S i]? = some false := by
  by_cases hi : i < (noninteger_slots S).length
  · have hn := skip_position_nth S i hi
    exact (mem_noninteger_slots S _).1 (List.getElem?_mem hn)
  · have := skip_position_past S i (by omega)
    omega

/-- The result of `integral_skip_impl` for a `std::size_t` argument is the
position computed without wrap, modulo `SIZE_MOD`. -/
theorem integral_skip_impl_mod (S : List Bool) :
    ∀ i, i < SIZE_MOD → detail.integral_skip_impl S i = skip_position S i % SIZE_MOD := by
  induction S with
  | nil =>
    intro i hi
    simp [detail.integral_skip_impl, skip_position, Nat.mod_eq_of_lt hi]
  | cons t s ih =>
    intro i hi
    have h0 := ih 0 (by decide)
    cases i with
    | zero =>
      cases t with
      | false => simp [detail.integral_skip_impl, skip_position]
      | true =>
        simp only [detail.integral_skip_impl, skip_position, if_true, size_add, h0]
        exact Nat.add_mod_mod _ _ _
    | succ j =>
      have h1 := ih j (by omega)
      have h2 := ih (j + 1) hi
      cases t with
      | false =>
        simp only [detail.integral_skip_impl, skip_position, Nat.add_one_ne_zero,
          if_false, Nat.add_sub_cancel, size_add, h1, Bool.false_eq_true]
        exact Nat.add_mod_mod _ _ _
      | true =>
        simp only [detail.integral_skip_impl, skip_position, Nat.add_one_ne_zero,
          if_false, if_true, size_add, h2]
        exact Nat.add_mod_mod _ _ _

theorem integral_skip_mod (S : List Bool) (i : Nat) (hi : i < SIZE_MOD) :
    integral_skip S i = skip_position S i % SIZE_MOD :=
  integral_skip_impl_mod S i hi

/-- No addition of `integral_skip` wraps when `i + integral_count()` is a
`std::size_t` value. -/
theorem integral_skip_exact (S : List Bool) (i : Nat)
    (hb : i + S.count true < SIZE_MOD) : integral_skip S i = skip_position S i := by
  have hle := skip_position_le S i
  rw [integral_skip_mod S i (by omega)]
  exact Nat.mod_eq_of_lt (by omega)

theorem integral_skip_le (S : List Bool) (i : Nat) (hi : i < SIZE_MOD) :
    integral_skip S i ≤ i + S.count true := by
  have hle := skip_position_le S i
  have hmod := Nat.mod_le (skip_position S i) SIZE_MOD
  rw [integral_skip_mod S i hi]
  omega

theorem integral_skip_slot (S : List Bool) (i : Nat)
    (hb : i + S.count true < SIZE_MOD)
    (h : integral_skip S i < S.length) : S[integral_skip S i]? = some false := by
  rw [integral_skip_exact S i hb] at h ⊢
  exact skip_position_slot S i h

theorem kinds_length (slices : List Selector) : (kinds slices).length = slices.length := by
  simp [kinds]

theorem kinds_ranged (slices : List Selector) (p : Nat) :
    (kinds slices)[p]? = some false ↔ ∃ sl, slices[p]? = some (Selector.ranged sl) := by
  unfold kinds
  rw [List.getElem?_map]
  cases h : slices[p]? with
  | none => simp
  | some s => cases s <;> simp [Selector.is_integral]

/-- Position of the caller argument of a ranged slot: it exists when the
caller passes one argument for each slot that is not integral. -/
theorem ranged_argument_lt (S : List Bool) :
    ∀ p, S[p]? = some false →
      p - detail.integral_count_impl S p + 1 + detail.integral_count_impl S S.length
        ≤ S.length := by
  induction S with
  | nil => intro p hp; simp at hp
  | cons t s ih =>
    intro p hp
    cases p with
    | zero =>
      have ht : t = false := by simpa using hp
      subst ht
      have := integral_count_impl_le s s.length
      simp [detail.integral_count_impl]
      omega
    | succ q =>
      have hq : s[q]? = some false := by simpa using hp
      have h1 := ih q hq
      have h2 := integral_count_impl_le s q
      cases t <;> simp [detail.integral_count_impl] <;> omega

theorem expand_pack_some {β : Type} (l : List β) :
    expand_pack (l.map some) = some l := by
  induction l with
  | nil => rfl
  | cons b rest ih => simp [expand_pack, ih]

theorem expand_pack_range (f : Nat → Option Nat) (g : Nat → Nat) (n : Nat)
    (h : ∀ p, p < n → f p = some (g p)) :
    expand_pack ((List.range n).map f) = some ((List.range n).map g) := by
  have : (List.range n).map f = ((List.range n).map g).map some := by
    rw [List.map_map]
    apply List.map_congr_left
    intro p hp
    exact h p (List.mem_range.1 hp)
  rw [this, expand_pack_some]

theorem fill_shape_spec {α σ : Type} (squeeze_size : Nat) (v : xview α σ)
    (f : Nat → Nat) :
    ∀ (n i : Nat) (shape : List Nat), i + n = shape.length →
      (∀ j, i ≤ j → j < i + n → xview.shape_entry squeeze_size v j = some (f j)) →
      ∃ filled, xview.fill_shape squeeze_size v n i shape = some filled
        ∧ filled.length = shape.length
        ∧ (∀ j, i ≤ j → j < i + n → filled[j]? = some (f j))
        ∧ (∀ j, j < i → filled[j]? = shape[j]?) := by
  intro n
  induction n with
  | zero =>
    intro i shape _ _
    exact ⟨shape, rfl, rfl, fun j h1 h2 => by omega, fun _ _ => rfl⟩
  | succ n ih =>
    intro i shape hlen hentry
    have hi : i < shape.length := by omega
    obtain ⟨filled, hf, hl, hnew, hold⟩ :=
      ih (i + 1) (shape.set i (f i)) (by simp; omega)
        (fun j h1 h2 => hentry j (by omega) (by omega))
    refine ⟨filled, ?_, ?_, ?_, ?_⟩
    · simp [xview.fill_shape, hentry i (Nat.le_refl _) (by omega), hi, hf]
    · simpa using hl
    · intro j h1 h2
      by_cases hj : j = i
      · subst hj
        rw [hold j (by omega)]
        simp [hi]
      · exact hnew j (by omega) (by omega)
    · intro j hj
      rw [hold j (by omega)]
      simp [List.getElem?_set]
      omega

theorem shift_coordinate_zero (l : List Int) :
    ∀ dim, shift_coordinate l dim 0 = l := by
  induction l with
  | nil => intro dim; rfl
  | cons x rest ih =>
    intro dim
    cases dim with
    | zero => simp [shift_coordinate]
    | succ d => simp [shift_coordinate, ih d]

theorem shift_coordinate_add (l : List Int) (a b : Int) :
    ∀ dim, shift_coordinate (shift_coordinate l dim a) dim b
      = shift_coordinate l dim (a + b) := by
  induction l with
  | nil => intro dim; rfl
  | cons x rest ih =>
    intro dim
    cases dim with
    | zero => simp [shift_coordinate, add_assoc]
    | succ d => simp [shift_coordinate, ih d]

theorem dense_array_lawful {α : Type} (shape : List Nat) (data : List Nat → α) :
    lawful_stepper (dense_array shape data) := by
  refine ⟨?_, ?_, ?_⟩
  · intro c dim
    show Cursor.move c dim ((0 : Nat) : Int) = c
    simp [Cursor.move, shift_coordinate_zero]
  · intro c dim a b
    show Cursor.move (Cursor.move c dim (a : Int)) dim (b : Int)
      = Cursor.move c dim ((a + b : Nat) : Int)
    simp [Cursor.move, shift_coordinate_add]
  · intro c dim a
    show Cursor.move (Cursor.move c dim (a : Int)) dim (-(a : Int)) = c
    simp [Cursor.move, shift_coordinate_add, shift_coordinate_zero]

/-! ## Element access -/

theorem size_sub_exact (a b : Nat) (hb : b ≤ a) (ha : a < SIZE_MOD) :
    size_sub a b = a - b := by
  unfold size_sub SIZE_MOD at *
  omega

theorem ctor_eq_of_fill {α σ : Type} (squeeze_size addr : Nat) (e : Expression α σ)
    (slices : List Selector) (n : Nat) (filled : List Nat)
    (hd : xview.dimension (⟨addr, e, slices, []⟩ : xview α σ) = n)
    (hf : xview.fill_shape squeeze_size (⟨addr, e, slices, []⟩ : xview α σ) n 0
      (List.replicate n 0) = some filled) :
    xview.ctor squeeze_size addr e slices = some ⟨addr, e, slices, filled⟩ := by
  unfold xview.ctor
  simp only [hd, hf]

/-- The constructor builds `passthrough_view`. -/
theorem passthrough_view_ctor (squeeze_size : Nat) :
    xview.ctor squeeze_size 0 (dense_array [2, 2] id) [] = some passthrough_view := by
  apply ctor_eq_of_fill squeeze_size 0 _ _ 2 [2, 2] (by decide)
  rfl

/-- The constructor builds `squeeze_view`. -/
theorem squeeze_view_ctor (squeeze_size : Nat) :
    xview.ctor squeeze_size 0 (dense_array [3, 4] id)
      [Selector.integral 1, Selector.ranged (xrange 0 4)] = some squeeze_view := by
  apply ctor_eq_of_fill squeeze_size 0 _ _ 1 [4] (by decide)
  rfl

/-- The constructor builds `shifted_view`. -/
theorem shifted_view_ctor (squeeze_size : Nat) :
    xview.ctor squeeze_size 0 (dense_array [4] id) [Selector.ranged (xrange 1 3)]
      = some shifted_view := by
  apply ctor_eq_of_fill squeeze_size 0 _ _ 1 [2] (by decide)
  rfl

/-- The constructor builds `strided_view`. -/
theorem strided_view_ctor (squeeze_size : Nat) :
    xview.ctor squeeze_size 0 (dense_array [6] id) [Selector.ranged stride_two]
      = some strided_view := by
  apply ctor_eq_of_fill squeeze_size 0 _ _ 1 [3] (by decide)
  rfl

theorem index_in_list {α σ : Type} (v : xview α σ) (args : List Nat)
    (hm : args.length = v.m_slices.length - integral_count (kinds v.m_slices))
    (p : Nat) (hp : p < v.m_slices.length) :
    (∀ value, v.m_slices[p]? = some (Selector.integral value) →
        v.index p args = some value)
    ∧ (∀ sl, v.m_slices[p]? = some (Selector.ranged sl) →
        ∃ a, args[p - integral_count_before (kinds v.m_slices) p]? = some a
          ∧ v.index p args = some (sl.call a)) := by
  constructor
  · intro value hv
    simp [xview.index, hp, hv, xview.sliced_access]
  · intro sl hs
    have hk : (kinds v.m_slices)[p]? = some false :=
      (kinds_ranged v.m_slices p).2 ⟨sl, hs⟩
    have hlt := ranged_argument_lt (kinds v.m_slices) p hk
    rw [kinds_length] at hlt
    have hj : p - integral_count_before (kinds v.m_slices) p < args.length := by
      unfold integral_count_before
      unfold integral_count at hm
      rw [kinds_length] at hm
      omega
    refine ⟨args[p - integral_count_before (kinds v.m_slices) p], ?_, ?_⟩
    · exact List.getElem?_eq_getElem hj
    · simp [xview.index, hp, hs, xview.sliced_access, argument,
        List.getElem?_eq_getElem hj]

/-- C1: element access of a view whose caller passes one index for each slot
that is not integral (`m = N - integral_count()`, so that the index sequence of
`access_impl` is `0 .. N-1`): `operator()` returns the element of the base at
a multi-index `b` of length `N` where `b_p` is the stored value of an integral
slot `p` and `slice_p(a_j)`, `j = p - integral_count_before(p)`, for a ranged
slot `p`.  Second part: over any base of dimension 2 and shape `(3,4)`, the
view with selectors `(1, range(0,4))` is constructed with shape `(4)` and
`view(j)` is `base(1, j)` for every `j < 4`. -/
theorem operator_call_resolves :
    (∀ (α σ : Type) (v : xview α σ) (args : List Nat),
      args.length = v.m_slices.length - integral_count (kinds v.m_slices) →
      ∃ b : List Nat,
        v.base_index (args.length + integral_count (kinds v.m_slices)) args = some b
        ∧ v.operator_call args = some (v.m_e.elem b)
        ∧ b.length = v.m_slices.length
        ∧ ∀ p, p < v.m_slices.length →
            (∀ value, v.m_slices[p]? = some (Selector.integral value) →
              b[p]? = some value)
            ∧ (∀ sl, v.m_slices[p]? = some (Selector.ranged sl) →
              ∃ a, args[p - integral_count_before (kinds v.m_slices) p]? = some a
                ∧ b[p]? = some (sl.call a)))
    ∧ (∀ (α σ : Type) (e : Expression α σ) (squeeze_size addr : Nat),
        e.dimension = 2 → e.shape = [3, 4] →
        ∃ v, xview.ctor squeeze_size addr e
              [Selector.integral 1, Selector.ranged (xrange 0 4)] = some v
          ∧ v.shape = [4]
          ∧ ∀ j, j < 4 → v.operator_call [j] = some (e.elem [1, j])) := by
  constructor
  · intro α σ v args hm
    have hic := integral_count_le_length (kinds v.m_slices)
    rw [kinds_length] at hic
    have hn : args.length + integral_count (kinds v.m_slices) = v.m_slices.length := by
      omega
    have hall : ∀ p, p < v.m_slices.length →
        v.index p args = some ((v.index p args).getD 0) := by
      intro p hp
      have h := index_in_list v args hm p hp
      cases hs : v.m_slices[p]? with
      | none =>
        rw [List.getElem?_eq_none_iff] at hs
        omega
      | some s =>
        cases s with
        | integral value => rw [h.1 value hs]; rfl
        | ranged sl =>
          obtain ⟨a, _, ha⟩ := h.2 sl hs
          rw [ha]; rfl
    have hb : v.base_index (args.length + integral_count (kinds v.m_slices)) args
        = some ((List.range v.m_slices.length).map
            (fun p => (v.index p args).getD 0)) := by
      rw [hn]
      exact expand_pack_range _ _ _ hall
    refine ⟨_, hb, ?_, by simp, ?_⟩
    · simp [xview.operator_call, xview.access_impl, hb]
    · intro p hp
      have h := index_in_list v args hm p hp
      have hbp : ((List.range v.m_slices.length).map
          (fun p => (v.index p args).getD 0))[p]? = some ((v.index p args).getD 0) := by
        rw [List.getElem?_map, List.getElem?_range hp]; rfl
      constructor
      · intro value hv
        rw [hbp, h.1 value hv]; rfl
      · intro sl hs
        obtain ⟨a, ha1, ha2⟩ := h.2 sl hs
        exact ⟨a, ha1, by rw [hbp, ha2]; rfl⟩
  · intro α σ e squeeze_size addr hd hs
    have hdim : xview.dimension
        (⟨addr, e, [Selector.integral 1, Selector.ranged (xrange 0 4)], []⟩ : xview α σ)
        = 1 := by
      show size_sub e.dimension 1 = 1
      rw [hd]
      decide
    have hentry : xview.shape_entry squeeze_size
        (⟨addr, e, [Selector.integral 1, Selector.ranged (xrange 0 4)], []⟩ : xview α σ)
        0 = some 4 := rfl
    refine ⟨⟨addr, e, [Selector.integral 1, Selector.ranged (xrange 0 4)], [4]⟩,
      ?_, rfl, ?_⟩
    · apply ctor_eq_of_fill squeeze_size addr e _ 1 [4] hdim
      simp [xview.fill_shape, hentry]
    · intro j _
      have hic : integral_count
          (kinds [Selector.integral 1, Selector.ranged (xrange 0 4)]) = 1 := rfl
      have h0 : xview.index
          (⟨addr, e, [Selector.integral 1, Selector.ranged (xrange 0 4)], [4]⟩ : xview α σ)
          0 [j] = some 1 := rfl
      have h1 : xview.index
          (⟨addr, e, [Selector.integral 1, Selector.ranged (xrange 0 4)], [4]⟩ : xview α σ)
          1 [j] = some (0 + j) := rfl
      simp only [xview.operator_call, xview.access_impl, xview.base_index, hic]
      simp [List.range_succ, expand_pack, h0, h1, xrange]

/-- Witness of C1: the view with selectors `(1, range(0, 4))` over the dense
array of shape `(3, 4)`, called with the single index 2. -/
theorem operator_call_resolves_witness :
    ([2] : List Nat).length
        = squeeze_view.m_slices.length - integral_count (kinds squeeze_view.m_slices)
    ∧ ∃ b : List Nat,
        squeeze_view.base_index
            (([2] : List Nat).length + integral_count (kinds squeeze_view.m_slices)) [2]
          = some b
        ∧ squeeze_view.operator_call [2] = some (squeeze_view.m_e.elem b)
        ∧ b.length = squeeze_view.m_slices.length :=
  ⟨by decide,
    (operator_call_resolves.1 (List Nat) Cursor squeeze_view [2] (by decide)).imp
      (fun _ h => ⟨h.1, h.2.1, h.2.2.1⟩)⟩

/-- Every base axis at or past the end of the selector list resolves to one
and the same caller argument, the one at position `N - integral_count()`. -/
theorem index_past_list {α σ : Type} (v : xview α σ) (args : List Nat) (p : Nat)
    (hp : v.m_slices.length ≤ p) :
    v.index p args
      = argument (v.m_slices.length - integral_count (kinds v.m_slices)) args := by
  have h := integral_count_impl_past (kinds v.m_slices) p (by rw [kinds_length]; exact hp)
  have hc := integral_count_eq_count (kinds v.m_slices)
  have hl := integral_count_le_length (kinds v.m_slices)
  rw [kinds_length] at h hl
  have hnot : ¬ p < v.m_slices.length := by omega
  simp only [xview.index, hnot, if_false, integral_count_before, h]
  congr 1
  omega

/-- C2, evaluated on the code: the view with no selectors over the dense
array of shape `(2, 2)`, which the constructor builds, resolves `view(0, 1)`
to the base multi-index `(0, 0)`, not `(0, 1)`: the pass-through axis 1
receives the caller argument of axis 0. -/
theorem passthrough_axes_share_argument :
    xview.ctor 1 0 (dense_array [2, 2] id) [] = some passthrough_view
    ∧ passthrough_view.base_index 2 [0, 1] = some [0, 0]
    ∧ passthrough_view.operator_call [0, 1] = some [0, 0]
    ∧ passthrough_view.index 1 [0, 1] = some 0 :=
  ⟨passthrough_view_ctor 1, rfl, rfl, rfl⟩

/-- C3: for a view with `k` integral selectors (`k` is the number of integral
slots of the selector list, which is what `integral_count()` returns) over a
base of dimension `d` with `k <= d`, `dimension()` is `d - k`; with no
selectors it is `d`. -/
theorem dimension_eq {α σ : Type} (v : xview α σ) (k : Nat)
    (hk : k = v.m_slices.countP Selector.is_integral)
    (hle : k ≤ v.m_e.dimension) (hd : v.m_e.dimension < SIZE_MOD) :
    integral_count (kinds v.m_slices) = k
    ∧ v.dimension = v.m_e.dimension - k
    ∧ (v.m_slices = [] → v.dimension = v.m_e.dimension) := by
  have hic : integral_count (kinds v.m_slices) = k := by
    rw [integral_count_kinds, hk]
  refine ⟨hic, ?_, ?_⟩
  · unfold xview.dimension
    rw [hic]
    exact size_sub_exact _ _ hle hd
  · intro hnil
    unfold xview.dimension
    rw [hic, size_sub_exact _ _ hle hd, hk, hnil]
    rfl

/-- Witness of C3: one integral selector over a base of dimension 2. -/
theorem dimension_eq_witness :
    (1 = squeeze_view.m_slices.countP Selector.is_integral)
    ∧ 1 ≤ squeeze_view.m_e.dimension
    ∧ squeeze_view.m_e.dimension < SIZE_MOD
    ∧ squeeze_view.dimension = squeeze_view.m_e.dimension - 1 :=
  ⟨by decide, by decide, by decide,
    (dimension_eq squeeze_view 1 (by decide) (by decide) (by decide)).2.1⟩

/-! ## Construction of the cached shape -/

theorem shape_entry_some {α σ : Type} (squeeze_size : Nat) (v : xview α σ) (i : Nat)
    (hwf : v.m_e.shape.length = v.m_e.dimension)
    (hd : v.m_e.dimension < SIZE_MOD)
    (hk : integral_count (kinds v.m_slices) ≤ v.m_e.dimension)
    (hi : i < v.m_e.dimension - integral_count (kinds v.m_slices)) :
    (integral_skip (kinds v.m_slices) i < v.m_slices.length →
      ∃ sl, v.m_slices[integral_skip (kinds v.m_slices) i]? = some (Selector.ranged sl)
        ∧ xview.shape_entry squeeze_size v i = some sl.size)
    ∧ (v.m_slices.length ≤ integral_skip (kinds v.m_slices) i →
      ∃ extent, v.m_e.shape[integral_skip (kinds v.m_slices) i]? = some extent
        ∧ xview.shape_entry squeeze_size v i = some extent) := by
  have hic := integral_count_eq_count (kinds v.m_slices)
  have hb : i + (kinds v.m_slices).count true < SIZE_MOD := by omega
  constructor
  · intro hlt
    have hslot := integral_skip_slot (kinds v.m_slices) i hb
      (by rw [kinds_length]; exact hlt)
    obtain ⟨sl, hsl⟩ := (kinds_ranged v.m_slices _).1 hslot
    refine ⟨sl, hsl, ?_⟩
    simp [xview.shape_entry, hlt, apply, hsl, get_size]
  · intro hge
    have hle := integral_skip_le (kinds v.m_slices) i (by omega)
    have hin : integral_skip (kinds v.m_slices) i < v.m_e.shape.length := by
      omega
    refine ⟨v.m_e.shape[integral_skip (kinds v.m_slices) i], List.getElem?_eq_getElem hin, ?_⟩
    have hnot : ¬ integral_skip (kinds v.m_slices) i < v.m_slices.length := by omega
    simp [xview.shape_entry, hnot, List.getElem?_eq_getElem hin]

/-- C4: over a base whose shape has one extent for each of its `d` axes, and
with no more integral selectors than base axes, the constructor returns a view
of the given base and selectors whose cached shape has length `dimension()`
and, for every axis `i < dimension()`, holds the size of the ranged selector
at position `integral_skip(i)` when that position is inside the selector list,
and the extent `base.shape()[integral_skip(i)]` otherwise. -/
theorem ctor_shape {α σ : Type} (squeeze_size addr : Nat) (e : Expression α σ)
    (slices : List Selector)
    (hwf : e.shape.length = e.dimension) (hd : e.dimension < SIZE_MOD)
    (hk : integral_count (kinds slices) ≤ e.dimension) :
    ∃ v, xview.ctor squeeze_size addr e slices = some v
      ∧ v.m_e = e ∧ v.m_slices = slices
      ∧ v.shape.length = v.dimension
      ∧ ∀ i, i < v.dimension →
        (integral_skip (kinds slices) i < slices.length →
          ∃ sl, slices[integral_skip (kinds slices) i]? = some (Selector.ranged sl)
            ∧ v.shape[i]? = some sl.size)
        ∧ (slices.length ≤ integral_skip (kinds slices) i →
          ∃ extent, e.shape[integral_skip (kinds slices) i]? = some extent
            ∧ v.shape[i]? = some extent) := by
  have hdim : xview.dimension (⟨addr, e, slices, []⟩ : xview α σ)
      = e.dimension - integral_count (kinds slices) :=
    size_sub_exact _ _ hk hd
  have hentry : ∀ j, 0 ≤ j → j < 0 + (e.dimension - integral_count (kinds slices)) →
      xview.shape_entry squeeze_size (⟨addr, e, slices, []⟩ : xview α σ) j
        = some ((xview.shape_entry squeeze_size
            (⟨addr, e, slices, []⟩ : xview α σ) j).getD 0) := by
    intro j _ hj
    have h := shape_entry_some squeeze_size (⟨addr, e, slices, []⟩ : xview α σ) j
      hwf hd hk (show j < e.dimension - integral_count (kinds slices) by omega)
    dsimp only at h
    by_cases hlt : integral_skip (kinds slices) j < slices.length
    · obtain ⟨sl, _, hs⟩ := h.1 hlt
      rw [hs]; rfl
    · obtain ⟨extent, _, hs⟩ := h.2 (by omega)
      rw [hs]; rfl
  obtain ⟨filled, hfill, hlen, hnew, _⟩ :=
    fill_shape_spec squeeze_size (⟨addr, e, slices, []⟩ : xview α σ) _
      (e.dimension - integral_count (kinds slices)) 0
      (List.replicate (e.dimension - integral_count (kinds slices)) 0)
      (by simp) hentry
  refine ⟨⟨addr, e, slices, filled⟩,
    ctor_eq_of_fill squeeze_size addr e slices _ filled hdim hfill, rfl, rfl, ?_, ?_⟩
  · show filled.length = size_sub e.dimension (integral_count (kinds slices))
    rw [size_sub_exact _ _ hk hd, hlen]
    simp
  · intro i hi
    have hi2 : i < e.dimension - integral_count (kinds slices) := by
      have : xview.dimension (⟨addr, e, slices, filled⟩ : xview α σ)
          = e.dimension - integral_count (kinds slices) := size_sub_exact _ _ hk hd
      omega
    have h := shape_entry_some squeeze_size (⟨addr, e, slices, []⟩ : xview α σ) i
      hwf hd hk hi2
    dsimp only at h
    have hv := hnew i (Nat.zero_le _) (by omega)
    constructor
    · intro hlt
      obtain ⟨sl, hsl, hs⟩ := h.1 hlt
      refine ⟨sl, hsl, ?_⟩
      show filled[i]? = _
      rw [hv, hs]; rfl
    · intro hge
      obtain ⟨extent, hex, hs⟩ := h.2 hge
      refine ⟨extent, hex, ?_⟩
      show filled[i]? = _
      rw [hv, hs]; rfl

/-- Witness of C4: the view with selectors `(1, range(0, 4))` over the dense
array of shape `(3, 4)`. -/
theorem ctor_shape_witness :
    (dense_array [3, 4] (id : List Nat → List Nat)).shape.length
        = (dense_array [3, 4] (id : List Nat → List Nat)).dimension
    ∧ (dense_array [3, 4] (id : List Nat → List Nat)).dimension < SIZE_MOD
    ∧ integral_count (kinds [Selector.integral 1, Selector.ranged (xrange 0 4)])
        ≤ (dense_array [3, 4] (id : List Nat → List Nat)).dimension
    ∧ ∃ v, xview.ctor 1 0 (dense_array [3, 4] (id : List Nat → List Nat))
          [Selector.integral 1, Selector.ranged (xrange 0 4)] = some v
        ∧ v.shape.length = v.dimension :=
  ⟨by decide, by decide, by decide,
    (ctor_shape 1 0 (dense_array [3, 4] (id : List Nat → List Nat))
      [Selector.integral 1, Selector.ranged (xrange 0 4)]
      (by decide) (by decide) (by decide)).imp
      (fun _ h => ⟨h.1, h.2.2.2.1⟩)⟩

/-! ## The resolver functions against their descriptions -/

/-- C5, as stated, evaluated on the code: for the list (integral, ranged),
which has one slot that is not integral, and `i = 2^64 - 1`, the additions of
`integral_skip` wrap and the result is 0, whereas
`N + (i - number of slots that are not integral)` is `2^64`. -/
theorem integral_skip_spec_fails :
    (noninteger_slots [true, false]).length ≤ 18446744073709551615
    ∧ integral_skip [true, false] 18446744073709551615 = 0
    ∧ [true, false].length
        + (18446744073709551615 - (noninteger_slots [true, false]).length)
        = 18446744073709551616
    ∧ integral_skip [true, false] 18446744073709551615
        ≠ [true, false].length
          + (18446744073709551615 - (noninteger_slots [true, false]).length) := by
  decide

/-- C5, amended: for every list of selector kinds of length `N` and every
`std::size_t` value `i`, `integral_skip(i)` is, modulo `2^64`, the element
number `i` of the increasing list of the positions of the slots that are not
integral when that list has more than `i` elements, and
`N + (i - number of slots that are not integral)` otherwise; when
`i + integral_count() < 2^64` no addition wraps and `integral_skip(i)` is that
value itself; in particular `integral_skip(0) = N` for a list of `N < 2^64`
integral slots only, and `integral_skip(i) = i` for the empty list. -/
theorem integral_skip_spec (S : List Bool) (i : Nat) (hi : i < SIZE_MOD) :
    (i < (noninteger_slots S).length →
      ∃ p, (noninteger_slots S)[i]? = some p ∧ integral_skip S i = p % SIZE_MOD)
    ∧ ((noninteger_slots S).length ≤ i →
      integral_skip S i
        = (S.length + (i - (noninteger_slots S).length)) % SIZE_MOD)
    ∧ (i + integral_count S < SIZE_MOD →
        (i < (noninteger_slots S).length →
          (noninteger_slots S)[i]? = some (integral_skip S i))
        ∧ ((noninteger_slots S).length ≤ i →
          integral_skip S i = S.length + (i - (noninteger_slots S).length)))
    ∧ ((∀ t, t ∈ S → t = true) → S.length < SIZE_MOD → integral_skip S 0 = S.length)
    ∧ integral_skip [] i = i := by
  have hmod := integral_skip_mod S i hi
  refine ⟨?_, ?_, ?_, ?_, rfl⟩
  · intro hlt
    exact ⟨skip_position S i, skip_position_nth S i hlt, hmod⟩
  · intro hge
    rw [hmod, skip_position_past S i hge]
  · intro hb
    rw [integral_count_eq_count] at hb
    rw [integral_skip_exact S i hb]
    exact ⟨skip_position_nth S i, skip_position_past S i⟩
  · intro hall hN
    have hnil : noninteger_slots S = [] := by
      rw [List.eq_nil_iff_forall_not_mem]
      intro p hp
      have hs := (mem_noninteger_slots S p).1 hp
      have := hall false (List.getElem?_mem hs)
      cases this
    have h := skip_position_past S 0 (by rw [hnil]; simp)
    rw [hnil] at h
    have hlen := List.count_le_length true S
    rw [integral_skip_exact S 0 (by omega), h]
    simp

/-- Witness of C5: in the list (ranged, integral, ranged) the slot number 1
among those that are not integral is at position 2 and the slot number 2 is
one place past the end of the list; for the list (integral, ranged) and
`i = 2^64 - 1` the result is `2^64` modulo `2^64`. -/
theorem integral_skip_spec_witness :
    ((1 : Nat) < SIZE_MOD ∧ 1 + integral_count [false, true, false] < SIZE_MOD
      ∧ 1 < (noninteger_slots [false, true, false]).length
      ∧ (noninteger_slots [false, true, false])[1]?
          = some (integral_skip [false, true, false] 1))
    ∧ ((2 : Nat) < SIZE_MOD ∧ 2 + integral_count [false, true, false] < SIZE_MOD
      ∧ (noninteger_slots [false, true, false]).length ≤ 2
      ∧ integral_skip [false, true, false] 2
          = [false, true, false].length
            + (2 - (noninteger_slots [false, true, false]).length))
    ∧ (18446744073709551615 < SIZE_MOD
      ∧ (noninteger_slots [true, false]).length ≤ 18446744073709551615
      ∧ integral_skip [true, false] 18446744073709551615
          = ([true, false].length
              + (18446744073709551615 - (noninteger_slots [true, false]).length))
            % SIZE_MOD)
    ∧ ((∀ t, t ∈ [true, true] → t = true) ∧ [true, true].length < SIZE_MOD
      ∧ integral_skip [true, true] 0 = 2) :=
  ⟨⟨by decide, by decide, by decide,
      ((integral_skip_spec [false, true, false] 1 (by decide)).2.2.1 (by decide)).1
        (by decide)⟩,
    ⟨by decide, by decide, by decide,
      ((integral_skip_spec [false, true, false] 2 (by decide)).2.2.1 (by decide)).2
        (by decide)⟩,
    ⟨by decide, by decide,
      (integral_skip_spec [true, false] 18446744073709551615 (by decide)).2.1
        (by decide)⟩,
    ⟨by decide, by decide,
      (integral_skip_spec [true, true] 0 (by decide)).2.2.2.1 (by decide) (by decide)⟩⟩

/-- C6: for every list of selector kinds of length `N` and every `i <= N`,
`integral_count_before(i)` is the number of integral slots among the first
`i` slots; `integral_count_before(0)` is 0 and `integral_count_before(N)` is
`integral_count()`, the number of integral slots of the whole list. -/
theorem integral_count_before_spec (S : List Bool) :
    (∀ i, i ≤ S.length → integral_count_before S i = (S.take i).count true)
    ∧ integral_count_before S 0 = 0
    ∧ integral_count_before S S.length = integral_count S
    ∧ integral_count S = S.count true := by
  refine ⟨integral_count_impl_take S, ?_, rfl, integral_count_eq_count S⟩
  have := integral_count_impl_le S 0
  unfold integral_count_before
  omega

/-- Witness of C6: two of the first three slots of (integral, ranged,
integral, ranged) are integral. -/
theorem integral_count_before_spec_witness :
    3 ≤ [true, false, true, false].length
    ∧ integral_count_before [true, false, true, false] 3
        = (([true, false, true, false] : List Bool).take 3).count true :=
  ⟨by decide, (integral_count_before_spec [true, false, true, false]).1 3 (by decide)⟩

/-- Past the end of the list `integral_count_before` adds the distance from
the end of the list to the number of integral slots. -/
theorem integral_count_before_past (S : List Bool) (i : Nat) (hi : S.length ≤ i) :
    integral_count_before S i = integral_count S + (i - S.length) := by
  rw [integral_count_eq_count]
  exact integral_count_impl_past S i hi

/-- C7, evaluated on the code: for the list of the single ranged slot,
`integral_count_before(2)` is 1 whereas `integral_count()` is 0, and for the
empty list `integral_count_before(1)` is 1 whereas `integral_count()` is 0. -/
theorem integral_count_before_past_end :
    integral_count_before [false] 2 = 1
    ∧ integral_count [false] = 0
    ∧ integral_count_before [] 1 = 1
    ∧ integral_count [] = 0 :=
  ⟨rfl, rfl, rfl, rfl⟩

/-- C8, evaluated on the code: for the view with the single selector
`range(1, 3)` over the dense array of shape `(4)`, which the constructor
builds, the stepper of `stepper_begin(shape())` has offset 0, holds the begin
stepper of the base as it is, and dereferences to the base element at `(0)`,
whereas `view(0)` is the base element at `(1)`. -/
theorem begin_stepper_ignores_slice_start :
    xview.ctor 1 0 (dense_array [4] id) [Selector.ranged (xrange 1 3)]
        = some shifted_view
    ∧ (shifted_view.stepper_begin shifted_view.shape).m_offset = 0
    ∧ (shifted_view.stepper_begin shifted_view.shape).m_it
        = shifted_view.m_e.stepper_begin shifted_view.m_e.shape
    ∧ (shifted_view.stepper_begin shifted_view.shape).deref = [0]
    ∧ shifted_view.operator_call [0] = some [1] := by
  refine ⟨shifted_view_ctor 1, by decide, rfl, by decide, by decide⟩

/-! ## Steps of the stepper -/

theorem size_mul_exact (a b : Nat) (h : a * b < SIZE_MOD) : size_mul a b = a * b :=
  Nat.mod_eq_of_lt h

theorem step_on_ranged {α σ : Type} (st : xview_stepper α σ) (axis n k : Nat)
    (sl : Slice) (hax : st.m_offset ≤ axis)
    (hk : integral_skip (kinds st.p_view.slices) axis = k)
    (hsl : st.p_view.slices[k]? = some (Selector.ranged sl)) :
    st.step axis n
      = some ⟨st.p_view,
          st.p_view.m_e.it_step st.m_it k (size_mul (sl.step_size 0) n),
          st.m_offset⟩ := by
  unfold xview_stepper.step
  simp only [ge_iff_le, hax, if_true, hk, apply, hsl, step_size_func]

theorem reset_on_ranged {α σ : Type} (squeeze_size : Nat) (st : xview_stepper α σ)
    (axis k : Nat) (sl : Slice) (hax : st.m_offset ≤ axis)
    (hk : integral_skip (kinds st.p_view.slices) axis = k)
    (hsl : st.p_view.slices[k]? = some (Selector.ranged sl)) :
    st.reset squeeze_size axis
      = some ⟨st.p_view,
          st.p_view.m_e.it_step_back st.m_it k (size_mul (sl.step_size 0) sl.size),
          st.m_offset⟩ := by
  unfold xview_stepper.reset
  simp only [ge_iff_le, hax, if_true, hk, apply, hsl, step_size_func, get_size]

theorem repeat_single_steps {α σ : Type} (view : xview α σ) (offset axis k : Nat)
    (sl : Slice) (hax : offset ≤ axis)
    (hk : integral_skip (kinds view.slices) axis = k)
    (hsl : view.slices[k]? = some (Selector.ranged sl))
    (hlaw : lawful_stepper view.m_e) :
    ∀ (count : Nat) (it : σ),
      repeat_member (fun t => xview_stepper.step t axis 1) count ⟨view, it, offset⟩
        = some ⟨view, view.m_e.it_step it k (size_mul (sl.step_size 0) 1 * count),
            offset⟩ := by
  intro count
  induction count with
  | zero =>
    intro it
    simp [repeat_member, hlaw.1]
  | succ j ih =>
    intro it
    have hstep := step_on_ranged (⟨view, it, offset⟩ : xview_stepper α σ) axis 1 k sl
      hax hk hsl
    simp only [repeat_member, hstep]
    rw [ih, hlaw.2.1]
    congr 3
    ring

/-- C9: for a stepper with offset 0 and a view axis whose position
`k = integral_skip(axis)` holds a ranged selector with `step_size(0) == s`,
`step(axis, n)` returns the stepper whose base stepper is the old one after
the single call `step(k, s * n)`, the product being that of `size_type`, which
is the exact product whenever that is representable; the view pointer and the
offset are unchanged. -/
theorem step_scales {α σ : Type} (st : xview_stepper α σ) (axis n k s : Nat)
    (sl : Slice) (hoff : st.m_offset = 0)
    (hk : integral_skip (kinds st.p_view.slices) axis = k)
    (hsl : st.p_view.slices[k]? = some (Selector.ranged sl))
    (hs : sl.step_size 0 = s) :
    st.step axis n
        = some ⟨st.p_view, st.p_view.m_e.it_step st.m_it k (size_mul s n), st.m_offset⟩
    ∧ (s * n < SIZE_MOD → size_mul s n = s * n) := by
  subst hs
  exact ⟨step_on_ranged st axis n k sl (by omega) hk hsl, size_mul_exact _ _⟩

/-- Witness of C9: a selector with step multiplier 2; `step(0, 5)` moves the
cursor of the base along the axis 0 by 10. -/
theorem step_scales_witness :
    (strided_view.stepper_begin strided_view.shape).m_offset = 0
    ∧ integral_skip (kinds (strided_view.stepper_begin strided_view.shape).p_view.slices) 0
        = 0
    ∧ (strided_view.stepper_begin strided_view.shape).p_view.slices[0]?
        = some (Selector.ranged stride_two)
    ∧ stride_two.step_size 0 = 2
    ∧ (strided_view.stepper_begin strided_view.shape).step 0 5
        = some ⟨strided_view,
            strided_view.m_e.it_step
              (strided_view.stepper_begin strided_view.shape).m_it 0 (size_mul 2 5), 0⟩
    ∧ size_mul 2 5 = 10 :=
  ⟨by decide, by decide, rfl, rfl,
    (step_scales (strided_view.stepper_begin strided_view.shape) 0 5 0 2 stride_two
      (by decide) (by decide) rfl rfl).1,
    (step_scales (strided_view.stepper_begin strided_view.shape) 0 5 0 2 stride_two
      (by decide) (by decide) rfl rfl).2 (by decide)⟩

/-- C10: for a stepper and an axis that is not below the offset, whose
position `k = integral_skip(axis)`, the one `step` resolves, holds a ranged
selector with step multiplier `s` and `m` elements, `reset(axis)` returns the
stepper whose base stepper is the old one after the single call
`step_back(k, s * m)`, while `step(axis, n)` calls `step(k, s * n)` on the same
axis `k`; the product is that of `size_type`, exact whenever it is
representable, and then, over a base stepper whose moves add up and whose
backward move undoes a forward move, `reset(axis)` after `m` calls of
`step(axis, 1)` gives back the stepper. -/
theorem reset_moves_back {α σ : Type} (squeeze_size : Nat) (st : xview_stepper α σ)
    (axis k s m : Nat) (sl : Slice) (hax : st.m_offset ≤ axis)
    (hk : integral_skip (kinds st.p_view.slices) axis = k)
    (hsl : st.p_view.slices[k]? = some (Selector.ranged sl))
    (hs : sl.step_size 0 = s) (hm : sl.size = m) :
    st.reset squeeze_size axis
        = some ⟨st.p_view, st.p_view.m_e.it_step_back st.m_it k (size_mul s m),
            st.m_offset⟩
    ∧ (∀ n, st.step axis n
        = some ⟨st.p_view, st.p_view.m_e.it_step st.m_it k (size_mul s n), st.m_offset⟩)
    ∧ (s * m < SIZE_MOD → size_mul s m = s * m)
    ∧ (s * m < SIZE_MOD → lawful_stepper st.p_view.m_e →
        (match repeat_member (fun t => xview_stepper.step t axis 1) m st with
          | some t => t.reset squeeze_size axis
          | none => none) = some st) := by
  subst hs hm
  refine ⟨reset_on_ranged squeeze_size st axis k sl hax hk hsl,
    fun n => step_on_ranged st axis n k sl hax hk hsl, size_mul_exact _ _, ?_⟩
  intro hrep hlaw
  have hrun := repeat_single_steps st.p_view st.m_offset axis k sl hax hk hsl hlaw
    sl.size st.m_it
  have hst : (⟨st.p_view, st.m_it, st.m_offset⟩ : xview_stepper α σ) = st := rfl
  rw [hst] at hrun
  simp only [hrun]
  have hreset := reset_on_ranged squeeze_size
    (⟨st.p_view, st.p_view.m_e.it_step st.m_it k (size_mul (sl.step_size 0) 1 * sl.size),
      st.m_offset⟩ : xview_stepper α σ) axis k sl hax hk hsl
  dsimp only at hreset
  rw [hreset]
  have hamount : size_mul (sl.step_size 0) 1 * sl.size
      = size_mul (sl.step_size 0) sl.size := by
    rw [size_mul_exact _ _ hrep]
    rcases Nat.eq_zero_or_pos sl.size with h0 | hpos
    · rw [h0]; simp
    · have hle : sl.step_size 0 * 1 ≤ sl.step_size 0 * sl.size :=
        Nat.mul_le_mul_left _ hpos
      rw [size_mul_exact _ _ (by omega)]
      simp
  simp only [hamount, hlaw.2.2]

/-- Witness of C10: a selector of 3 elements with step multiplier 2 over the
dense array of shape `(6)`; `reset(0)` moves the cursor of the base back by 6
and undoes three single steps. -/
theorem reset_moves_back_witness :
    (strided_view.stepper_begin strided_view.shape).m_offset ≤ 0
    ∧ integral_skip (kinds (strided_view.stepper_begin strided_view.shape).p_view.slices) 0
        = 0
    ∧ (strided_view.stepper_begin strided_view.shape).p_view.slices[0]?
        = some (Selector.ranged stride_two)
    ∧ stride_two.step_size 0 = 2
    ∧ stride_two.size = 3
    ∧ (strided_view.stepper_begin strided_view.shape).reset 1 0
        = some ⟨strided_view,
            strided_view.m_e.it_step_back
              (strided_view.stepper_begin strided_view.shape).m_it 0 (size_mul 2 3), 0⟩
    ∧ size_mul 2 3 = 6
    ∧ (match repeat_member (fun t => xview_stepper.step t 0 1) 3
          (strided_view.stepper_begin strided_view.shape) with
        | some t => t.reset 1 0
        | none => none) = some (strided_view.stepper_begin strided_view.shape) :=
  ⟨by decide, by decide, rfl, rfl, rfl,
    (reset_moves_back 1 (strided_view.stepper_begin strided_view.shape) 0 0 2 3
      stride_two (by decide) (by decide) rfl rfl rfl).1,
    (reset_moves_back 1 (strided_view.stepper_begin strided_view.shape) 0 0 2 3
      stride_two (by decide) (by decide) rfl rfl rfl).2.2.1 (by decide),
    (reset_moves_back 1 (strided_view.stepper_begin strided_view.shape) 0 0 2 3
      stride_two (by decide) (by decide) rfl rfl rfl).2.2.2 (by decide)
      (dense_array_lawful [6] id)⟩

/-! ## Steps outside the view, comparison, and the entry points -/

theorem step_back_on_ranged {α σ : Type} (st : xview_stepper α σ) (axis n k : Nat)
    (sl : Slice) (hax : st.m_offset ≤ axis)
    (hk : integral_skip (kinds st.p_view.slices) axis = k)
    (hsl : st.p_view.slices[k]? = some (Selector.ranged sl)) :
    st.step_back axis n
      = some ⟨st.p_view,
          st.p_view.m_e.it_step_back st.m_it k (size_mul (sl.step_size 0) n),
          st.m_offset⟩ := by
  unfold xview_stepper.step_back
  simp only [ge_iff_le, hax, if_true, hk, apply, hsl, step_size_func]

theorem equal_iff {α σ : Type} (a b : xview_stepper α σ) :
    a.equal b = true
      ↔ a.p_view.addr = b.p_view.addr
        ∧ a.p_view.m_e.it_eq a.m_it b.m_it = true
        ∧ a.m_offset = b.m_offset := by
  unfold xview_stepper.equal
  simp [Bool.and_eq_true, and_assoc]

/-- C11: for every stepper, every axis below the offset and every `n`, each of
`step(axis, n)`, `step_back(axis, n)` and `reset(axis)` returns the stepper as
it is: the base stepper, the view pointer and the offset are unchanged. -/
theorem broadcast_axis_is_isolated {α σ : Type} (squeeze_size : Nat)
    (st : xview_stepper α σ) (axis n : Nat) (hax : axis < st.m_offset) :
    st.step axis n = some st
    ∧ st.step_back axis n = some st
    ∧ st.reset squeeze_size axis = some st := by
  have hnot : ¬ (axis ≥ st.m_offset) := by omega
  refine ⟨?_, ?_, ?_⟩
  · simp only [xview_stepper.step, hnot, if_false]
  · simp only [xview_stepper.step_back, hnot, if_false]
  · simp only [xview_stepper.reset, hnot, if_false]

/-- Witness of C11: the stepper of a view of dimension 1 for a shape of two
axes has offset 1, and `step(0, 7)` leaves it as it is. -/
theorem broadcast_axis_is_isolated_witness :
    (strided_view.stepper_begin [4, 3]).m_offset = 1
    ∧ 0 < (strided_view.stepper_begin [4, 3]).m_offset
    ∧ (strided_view.stepper_begin [4, 3]).step 0 7
        = some (strided_view.stepper_begin [4, 3]) :=
  ⟨by decide, by decide,
    (broadcast_axis_is_isolated 1 (strided_view.stepper_begin [4, 3]) 0 7
      (by decide)).1⟩

/-- C12: `equal` holds exactly when the two steppers point to the same view
object, their base steppers compare equal and their offsets are equal; two
steppers of one view for one shape, both moved with `to_end()`, compare equal
(the comparison of the base stepper being reflexive); steppers of two view
objects at different addresses compare unequal, whatever their selectors and
shapes; `operator==` is `equal` and `operator!=` is its negation. -/
theorem stepper_equal_spec {α σ : Type} :
    (∀ a b : xview_stepper α σ,
      a.equal b = true
        ↔ a.p_view.addr = b.p_view.addr
          ∧ a.p_view.m_e.it_eq a.m_it b.m_it = true
          ∧ a.m_offset = b.m_offset)
    ∧ (∀ (v : xview α σ) (shape : List Nat),
        (∀ c, v.m_e.it_eq c c = true) →
        (v.stepper_begin shape).to_end.equal (v.stepper_begin shape).to_end = true
        ∧ (v.stepper_begin shape).to_end.equal (v.stepper_end shape).to_end
            = v.m_e.it_eq (v.m_e.it_to_end (v.m_e.stepper_begin v.m_e.shape))
                (v.m_e.it_to_end (v.m_e.stepper_end v.m_e.shape)))
    ∧ (∀ a b : xview_stepper α σ, a.p_view.addr ≠ b.p_view.addr → a.equal b = false)
    ∧ (∀ a b : xview_stepper α σ,
        a.operator_eq b = a.equal b ∧ a.operator_ne b = !(a.operator_eq b)) := by
  refine ⟨equal_iff, ?_, ?_, fun a b => ⟨rfl, rfl⟩⟩
  · intro v shape hrefl
    constructor
    · rw [equal_iff]
      exact ⟨rfl, hrefl _, rfl⟩
    · simp [xview_stepper.equal, xview_stepper.to_end, xview.stepper_begin,
        xview.stepper_end, xview_stepper.ctor]
  · intro a b hne
    cases h : a.equal b with
    | false => rfl
    | true => exact absurd ((equal_iff a b).1 h).1 hne

/-- Witness of C12: over the dense array two steppers of `strided_view` moved
to the end compare equal, and a stepper of the view object `strided_view_twin`,
with the same selector and shape, compares unequal to one of `strided_view`. -/
theorem stepper_equal_spec_witness :
    (∀ c : Cursor, strided_view.m_e.it_eq c c = true)
    ∧ (strided_view.stepper_begin [3]).to_end.equal
        (strided_view.stepper_begin [3]).to_end = true
    ∧ (strided_view.stepper_begin [3]).p_view.addr
        ≠ (strided_view_twin.stepper_begin [3]).p_view.addr
    ∧ (strided_view.stepper_begin [3]).equal (strided_view_twin.stepper_begin [3])
        = false :=
  ⟨fun c => decide_eq_true rfl,
    ((@stepper_equal_spec (List Nat) Cursor).2.1 strided_view [3]
      (fun c => decide_eq_true rfl)).1,
    by decide,
    (@stepper_equal_spec (List Nat) Cursor).2.2.1
      (strided_view.stepper_begin [3]) (strided_view_twin.stepper_begin [3])
      (by decide)⟩

/-- C13: for a stepper and an axis that is not below the offset, whose
position `k = integral_skip(axis)` holds a ranged selector with step
multiplier `s`, `step_back(axis, n)` is the single call `step_back(k, s * n)`
of the base stepper and `step(axis, n)` the single call `step(k, s * n)`: the
same axis and the same `size_type` product, which is exact whenever it is
representable; when `step_back` of the base stepper undoes its `step`,
`step(axis, n)` followed by `step_back(axis, n)` gives back the stepper, which
compares equal to the first one when the comparison of the base stepper is
reflexive. -/
theorem step_back_inverts_step {α σ : Type} (st : xview_stepper α σ)
    (axis n k s : Nat) (sl : Slice) (hax : st.m_offset ≤ axis)
    (hk : integral_skip (kinds st.p_view.slices) axis = k)
    (hsl : st.p_view.slices[k]? = some (Selector.ranged sl))
    (hs : sl.step_size 0 = s) :
    st.step_back axis n
        = some ⟨st.p_view, st.p_view.m_e.it_step_back st.m_it k (size_mul s n),
            st.m_offset⟩
    ∧ st.step axis n
        = some ⟨st.p_view, st.p_view.m_e.it_step st.m_it k (size_mul s n), st.m_offset⟩
    ∧ (s * n < SIZE_MOD → size_mul s n = s * n)
    ∧ ((∀ c dim a, st.p_view.m_e.it_step_back (st.p_view.m_e.it_step c dim a) dim a = c) →
        (match st.step axis n with
          | some t => t.step_back axis n
          | none => none) = some st
        ∧ ((∀ c, st.p_view.m_e.it_eq c c = true) →
          ∃ t, (match st.step axis n with
              | some t => t.step_back axis n
              | none => none) = some t ∧ t.equal st = true)) := by
  subst hs
  have hstep := step_on_ranged st axis n k sl hax hk hsl
  have hround : (∀ c dim a,
      st.p_view.m_e.it_step_back (st.p_view.m_e.it_step c dim a) dim a = c) →
      (match st.step axis n with
        | some t => t.step_back axis n
        | none => none) = some st := by
    intro hinv
    have hback := step_back_on_ranged
      (⟨st.p_view, st.p_view.m_e.it_step st.m_it k (size_mul (sl.step_size 0) n),
        st.m_offset⟩ : xview_stepper α σ) axis n k sl hax hk hsl
    dsimp only at hback
    simp only [hstep, hback, hinv]
  refine ⟨step_back_on_ranged st axis n k sl hax hk hsl, hstep, size_mul_exact _ _, ?_⟩
  intro hinv
  refine ⟨hround hinv, ?_⟩
  intro hrefl
  refine ⟨st, hround hinv, ?_⟩
  rw [equal_iff]
  exact ⟨rfl, hrefl _, rfl⟩

/-- Witness of C13: a selector with step multiplier 2 over the dense array of
shape `(6)`; `step(0, 2)` followed by `step_back(0, 2)` gives back the
stepper. -/
theorem step_back_inverts_step_witness :
    (strided_view.stepper_begin [3]).m_offset ≤ 0
    ∧ integral_skip (kinds (strided_view.stepper_begin [3]).p_view.slices) 0 = 0
    ∧ (strided_view.stepper_begin [3]).p_view.slices[0]?
        = some (Selector.ranged stride_two)
    ∧ stride_two.step_size 0 = 2
    ∧ (strided_view.stepper_begin [3]).step_back 0 2
        = some ⟨strided_view,
            strided_view.m_e.it_step_back (strided_view.stepper_begin [3]).m_it 0
              (size_mul 2 2), 0⟩
    ∧ (match (strided_view.stepper_begin [3]).step 0 2 with
        | some t => t.step_back 0 2
        | none => none) = some (strided_view.stepper_begin [3]) :=
  ⟨by decide, by decide, rfl, rfl,
    (step_back_inverts_step (strided_view.stepper_begin [3]) 0 2 0 2 stride_two
      (by decide) (by decide) rfl rfl).1,
    ((step_back_inverts_step (strided_view.stepper_begin [3]) 0 2 0 2 stride_two
      (by decide) (by decide) rfl rfl).2.2.2 (dense_array_lawful [6] id).2.2).1⟩

/-- C14: `is_trivial_broadcast(strides)` is false for every view, whatever its
base and its selector list, the empty list included, and for every argument
`strides`. -/
theorem is_trivial_broadcast_false {α σ : Type} (v : xview α σ) (strides : List Nat) :
    v.is_trivial_broadcast strides = false
    ∧ (∀ (addr : Nat) (e : Expression α σ) (shape : List Nat),
        xview.is_trivial_broadcast (⟨addr, e, [], shape⟩ : xview α σ) strides = false) :=
  ⟨rfl, fun _ _ _ => rfl⟩

theorem fill_shape_length {α σ : Type} (squeeze_size : Nat) (v : xview α σ) :
    ∀ (n i : Nat) (shape filled : List Nat),
      xview.fill_shape squeeze_size v n i shape = some filled →
      filled.length = shape.length := by
  intro n
  induction n with
  | zero =>
    intro i shape filled h
    simp only [xview.fill_shape, Option.some.injEq] at h
    rw [← h]
  | succ n ih =>
    intro i shape filled h
    unfold xview.fill_shape at h
    cases hentry : xview.shape_entry squeeze_size v i with
    | none => simp [hentry] at h
    | some extent =>
      simp only [hentry] at h
      by_cases hi : i < shape.length
      · simp only [hi, if_true] at h
        rw [ih _ _ _ h]
        simp
      · simp [hi] at h

/-- The cached shape of a view that the constructor returns has length
`dimension()`. -/
theorem ctor_shape_length {α σ : Type} (squeeze_size addr : Nat) (e : Expression α σ)
    (slices : List Selector) (v : xview α σ)
    (h : xview.ctor squeeze_size addr e slices = some v) :
    v.m_shape.length = v.dimension := by
  unfold xview.ctor at h
  cases hf : xview.fill_shape squeeze_size (⟨addr, e, slices, []⟩ : xview α σ)
      (xview.dimension (⟨addr, e, slices, []⟩ : xview α σ)) 0
      (List.replicate (xview.dimension (⟨addr, e, slices, []⟩ : xview α σ)) 0) with
  | none => simp [hf] at h
  | some filled =>
    simp only [hf, Option.some.injEq] at h
    have hl := fill_shape_length _ _ _ _ _ _ hf
    rw [← h]
    simpa using hl

theorem dimension_lt_size_mod {α σ : Type} (v : xview α σ) : v.dimension < SIZE_MOD := by
  unfold xview.dimension size_sub
  exact Nat.mod_lt _ (by decide)

/-- C17: for every view and every shape `s` with `s.size() >= dimension()`,
`stepper_begin(s)` and `stepper_end(s)` return steppers that point to this
view, have offset `s.size() - dimension()` and hold the stepper
`stepper_begin(shape())`, respectively `stepper_end(shape())`, of the base;
for a view whose cached shape has length `dimension()`, as every view that the
constructor returns has, the steppers behind `begin()` and `end()` have
offset 0. -/
theorem stepper_entry_points {α σ : Type} (v : xview α σ) :
    (∀ s : List Nat, v.dimension ≤ s.length → s.length < SIZE_MOD →
      (v.stepper_begin s).p_view = v
      ∧ (v.stepper_begin s).m_offset = s.length - v.dimension
      ∧ (v.stepper_begin s).m_it = v.m_e.stepper_begin v.m_e.shape
      ∧ (v.stepper_end s).p_view = v
      ∧ (v.stepper_end s).m_offset = s.length - v.dimension
      ∧ (v.stepper_end s).m_it = v.m_e.stepper_end v.m_e.shape)
    ∧ (v.m_shape.length = v.dimension →
        v.begin.stepper = v.stepper_begin v.shape
        ∧ v.end_.stepper = v.stepper_end v.shape
        ∧ v.begin.stepper.m_offset = 0
        ∧ v.end_.stepper.m_offset = 0)
    ∧ (∀ (squeeze_size addr : Nat) (e : Expression α σ) (slices : List Selector),
        xview.ctor squeeze_size addr e slices = some v →
        v.begin.stepper.m_offset = 0 ∧ v.end_.stepper.m_offset = 0) := by
  have hzero : v.m_shape.length = v.dimension →
      size_sub v.m_shape.length v.dimension = 0 := by
    intro h
    rw [h, size_sub_exact _ _ (Nat.le_refl _) (dimension_lt_size_mod v)]
    simp
  refine ⟨?_, ?_, ?_⟩
  · intro s hle hlt
    have hoff : size_sub s.length v.dimension = s.length - v.dimension :=
      size_sub_exact _ _ hle hlt
    exact ⟨rfl, hoff, rfl, rfl, hoff, rfl⟩
  · intro hlen
    exact ⟨rfl, rfl, hzero hlen, hzero hlen⟩
  · intro squeeze_size addr e slices hctor
    have hlen := ctor_shape_length squeeze_size addr e slices v hctor
    exact ⟨hzero hlen, hzero hlen⟩

/-- Witness of C17: the view `strided_view` of dimension 1, which the
constructor returns, with a shape of two axes and with its own shape. -/
theorem stepper_entry_points_witness :
    (strided_view.dimension ≤ ([4, 3] : List Nat).length
      ∧ ([4, 3] : List Nat).length < SIZE_MOD
      ∧ (strided_view.stepper_begin [4, 3]).m_offset
          = ([4, 3] : List Nat).length - strided_view.dimension)
    ∧ (strided_view.m_shape.length = strided_view.dimension
      ∧ strided_view.begin.stepper.m_offset = 0)
    ∧ (xview.ctor 1 0 (dense_array [6] id) [Selector.ranged stride_two]
          = some strided_view
      ∧ strided_view.end_.stepper.m_offset = 0) :=
  ⟨⟨by decide, by decide,
      ((stepper_entry_points strided_view).1 [4, 3] (by decide) (by decide)).2.1⟩,
    ⟨by decide, ((stepper_entry_points strided_view).2.1 (by decide)).2.2.1⟩,
    ⟨strided_view_ctor 1,
      ((stepper_entry_points strided_view).2.2 1 0 (dense_array [6] id)
        [Selector.ranged stride_two] (strided_view_ctor 1)).2⟩⟩

/-! ## The two directions of the resolver -/

theorem count_take_succ (S : List Bool) (k : Nat) :
    (S.take (k + 1)).count true
      = (S.take k).count true + (if S.getD k false then 1 else 0) := by
  induction S generalizing k with
  | nil => simp
  | cons t s ih =>
    cases k with
    | zero => cases t <;> simp
    | succ j =>
      have := ih j
      simp only [List.take_succ_cons, List.count_cons, List.getD_cons_succ] at this ⊢
      omega

theorem noninteger_before_succ (S : List Bool) (k : Nat) :
    noninteger_before S (k + 1)
      = noninteger_before S k + (if noninteger_at S k then 1 else 0) := by
  unfold noninteger_before
  rw [List.range_succ, List.filter_append, List.length_append]
  cases h : noninteger_at S k <;> simp [List.filter_cons, h]

theorem noninteger_before_add_count (S : List Bool) (k : Nat) :
    noninteger_before S k + (S.take k).count true = k := by
  induction k with
  | zero => simp [noninteger_before]
  | succ j ih =>
    rw [noninteger_before_succ, count_take_succ]
    unfold noninteger_at
    cases S.getD j false <;> simp <;> omega

theorem noninteger_before_mono (S : List Bool) (k : Nat) :
    ∀ d, noninteger_before S k ≤ noninteger_before S (k + d) := by
  intro d
  induction d with
  | zero => exact Nat.le_refl _
  | succ d ih =>
    have := noninteger_before_succ S (k + d)
    rw [← Nat.add_assoc]
    omega

theorem noninteger_before_strict (S : List Bool) (k1 k2 : Nat) (hlt : k1 < k2)
    (h1 : noninteger_at S k1 = true) :
    noninteger_before S k1 < noninteger_before S k2 := by
  have hs := noninteger_before_succ S k1
  rw [h1] at hs
  have hm := noninteger_before_mono S (k1 + 1) (k2 - (k1 + 1))
  have : k1 + 1 + (k2 - (k1 + 1)) = k2 := by omega
  rw [this] at hm
  simp at hs
  omega

theorem skip_position_count (S : List Bool) :
    ∀ i, (S.take (skip_position S i)).count true + i
      = skip_position S i := by
  induction S with
  | nil => intro i; simp [skip_position]
  | cons t s ih =>
    intro i
    cases i with
    | zero =>
      cases t with
      | false => simp [skip_position]
      | true =>
        have := ih 0
        simp only [skip_position, if_true]
        rw [Nat.add_comm 1, List.take_succ_cons, List.count_cons]
        simp
        omega
    | succ j =>
      cases t with
      | false =>
        have := ih j
        simp only [skip_position, Nat.add_one_ne_zero, if_false,
          Nat.add_sub_cancel]
        rw [Nat.add_comm 1, List.take_succ_cons, List.count_cons]
        simp
        omega
      | true =>
        have := ih (j + 1)
        simp only [skip_position, Nat.add_one_ne_zero, if_false, if_true]
        rw [Nat.add_comm 1, List.take_succ_cons, List.count_cons]
        simp
        omega

theorem skip_position_noninteger_at (S : List Bool) (i : Nat) :
    noninteger_at S (skip_position S i) = true := by
  unfold noninteger_at
  by_cases h : skip_position S i < S.length
  · have hs := skip_position_slot S i h
    have : S.getD (skip_position S i) false = false := by
      rw [List.getD_eq_getElem?_getD, hs]; rfl
    rw [this]; rfl
  · have : S.getD (skip_position S i) false = false := by
      rw [List.getD_eq_getElem?_getD, List.getElem?_eq_none (by omega)]; rfl
    rw [this]; rfl

theorem skip_position_before (S : List Bool) (i : Nat) :
    noninteger_before S (skip_position S i) = i := by
  have h1 := skip_position_count S i
  have h2 := noninteger_before_add_count S (skip_position S i)
  omega

theorem skip_position_unique (S : List Bool) (i k : Nat)
    (hk : noninteger_at S k = true) (hb : noninteger_before S k = i) :
    k = skip_position S i := by
  have h1 := skip_position_noninteger_at S i
  have h2 := skip_position_before S i
  rcases Nat.lt_trichotomy k (skip_position S i) with hlt | heq | hgt
  · have := noninteger_before_strict S _ _ hlt hk
    omega
  · exact heq
  · have := noninteger_before_strict S _ _ hgt h1
    omega

theorem skip_position_strict (S : List Bool) :
    ∀ i j, i < j → skip_position S i < skip_position S j := by
  induction S with
  | nil => intro i j h; simpa [skip_position] using h
  | cons t s ih =>
    intro i j h
    cases j with
    | zero => omega
    | succ j1 =>
      cases i with
      | zero =>
        cases t with
        | false => simp [skip_position]
        | true =>
          have := ih 0 (j1 + 1) (by omega)
          simp [skip_position]
          omega
      | succ i1 =>
        cases t with
        | false =>
          have := ih i1 j1 (by omega)
          simp [skip_position]
          omega
        | true =>
          have := ih (i1 + 1) (j1 + 1) (by omega)
          simp [skip_position]
          omega

/-- C16, as stated, evaluated on the code: for the list (integral, ranged)
and `i = 2^64 - 1` the additions of `integral_skip` wrap and the result is 0,
a position inside the list whose slot is integral, which therefore is not a
position that is not integral. -/
theorem integral_skip_unique_fails :
    integral_skip [true, false] 18446744073709551615 = 0
    ∧ integral_skip [true, false] 18446744073709551615 < [true, false].length
    ∧ [true, false][integral_skip [true, false] 18446744073709551615]? = some true
    ∧ noninteger_at [true, false]
        (integral_skip [true, false] 18446744073709551615) = false := by
  decide

/-- C16, amended: for every list of selector kinds of length `N` and every `i`
with `i + integral_count() < 2^64`, so that no addition of `integral_skip`
wraps, the slot at position `integral_skip(i)` is not integral when that
position is inside the list, and, positions at or past `N` counting as not
integral, `integral_skip(i)` is a position that is not integral with exactly
`i` positions that are not integral before it, and it is the only such
position. -/
theorem integral_skip_unique (S : List Bool) (i : Nat)
    (hb : i + integral_count S < SIZE_MOD) :
    (integral_skip S i < S.length → S[integral_skip S i]? = some false)
    ∧ noninteger_at S (integral_skip S i) = true
    ∧ noninteger_before S (integral_skip S i) = i
    ∧ (∀ k, noninteger_at S k = true → noninteger_before S k = i →
        k = integral_skip S i) := by
  rw [integral_count_eq_count] at hb
  rw [integral_skip_exact S i hb]
  exact ⟨skip_position_slot S i, skip_position_noninteger_at S i,
    skip_position_before S i, fun k hk hbefore => skip_position_unique S i k hk hbefore⟩

/-- Witness of C16: in the list (integral, ranged, integral, ranged) the
position 3 is the one that is not integral with one such position before
it. -/
theorem integral_skip_unique_witness :
    1 + integral_count [true, false, true, false] < SIZE_MOD
    ∧ (integral_skip [true, false, true, false] 1 < [true, false, true, false].length
      ∧ [true, false, true, false][integral_skip [true, false, true, false] 1]?
          = some false)
    ∧ (noninteger_at [true, false, true, false] 3 = true
      ∧ noninteger_before [true, false, true, false] 3 = 1
      ∧ 3 = integral_skip [true, false, true, false] 1) :=
  ⟨by decide,
    ⟨by decide,
      (integral_skip_unique [true, false, true, false] 1 (by decide)).1 (by decide)⟩,
    ⟨by decide, by decide,
      (integral_skip_unique [true, false, true, false] 1 (by decide)).2.2.2 3
        (by decide) (by decide)⟩⟩

/-- C19, as stated, evaluated on the code: for the list of the single integral
slot, `integral_skip(2^64 - 2)` is `2^64 - 1` and `integral_skip(2^64 - 1)`
wraps to 0: the function is not increasing there, and `i <= integral_skip(i)`
fails for `i = 2^64 - 1`. -/
theorem integral_skip_increasing_fails :
    (18446744073709551614 : Nat) < 18446744073709551615
    ∧ integral_skip [true] 18446744073709551614 = 18446744073709551615
    ∧ integral_skip [true] 18446744073709551615 = 0
    ∧ ¬ (integral_skip [true] 18446744073709551614
          < integral_skip [true] 18446744073709551615)
    ∧ ¬ (18446744073709551615 ≤ integral_skip [true] 18446744073709551615) := by
  decide

/-- C19, amended: for every list of selector kinds `integral_skip` is strictly
increasing on the arguments `i` with `i + integral_count() < 2^64`, where no
addition wraps; for these `i <= integral_skip(i) <= i + integral_count()`, and
two such view axes with the same result are the same axis. -/
theorem integral_skip_increasing (S : List Bool) :
    (∀ i j, i < j → j + integral_count S < SIZE_MOD →
      integral_skip S i < integral_skip S j)
    ∧ (∀ i, i + integral_count S < SIZE_MOD →
      i ≤ integral_skip S i ∧ integral_skip S i ≤ i + integral_count S)
    ∧ (∀ i j, i + integral_count S < SIZE_MOD → j + integral_count S < SIZE_MOD →
      integral_skip S i = integral_skip S j → i = j) := by
  rw [integral_count_eq_count]
  refine ⟨?_, ?_, ?_⟩
  · intro i j hlt hj
    rw [integral_skip_exact S i (by omega), integral_skip_exact S j hj]
    exact skip_position_strict S i j hlt
  · intro i hi
    rw [integral_skip_exact S i hi]
    exact ⟨skip_position_ge S i, skip_position_le S i⟩
  · intro i j hi hj h
    rw [integral_skip_exact S i hi, integral_skip_exact S j hj] at h
    rcases Nat.lt_trichotomy i j with hlt | heq | hgt
    · have := skip_position_strict S i j hlt
      omega
    · exact heq
    · have := skip_position_strict S j i hgt
      omega

/-- Witness of C19: the axes 0 and 1 of the list (integral, ranged, integral,
ranged). -/
theorem integral_skip_increasing_witness :
    ((0 : Nat) < 1 ∧ 1 + integral_count [true, false, true, false] < SIZE_MOD
      ∧ integral_skip [true, false, true, false] 0
          < integral_skip [true, false, true, false] 1)
    ∧ (1 + integral_count [true, false, true, false] < SIZE_MOD
      ∧ 1 ≤ integral_skip [true, false, true, false] 1
      ∧ integral_skip [true, false, true, false] 1
          ≤ 1 + integral_count [true, false, true, false])
    ∧ (0 + integral_count [true, false] < SIZE_MOD
      ∧ integral_skip [true, false] 0 = integral_skip [true, false] 0
      ∧ (0 : Nat) = 0) :=
  ⟨⟨by decide, by decide,
      (integral_skip_increasing [true, false, true, false]).1 0 1 (by decide)
        (by decide)⟩,
    ⟨by decide, (integral_skip_increasing [true, false, true, false]).2.1 1 (by decide)⟩,
    ⟨by decide, rfl,
      (integral_skip_increasing [true, false]).2.2 0 0 (by decide) (by decide) rfl⟩⟩

theorem ctor_entries {α σ : Type} (squeeze_size addr : Nat) (e : Expression α σ)
    (slices : List Selector)
    (hwf : e.shape.length = e.dimension) (hd : e.dimension < SIZE_MOD)
    (hk : integral_count (kinds slices) ≤ e.dimension) :
    ∃ filled, xview.ctor squeeze_size addr e slices = some ⟨addr, e, slices, filled⟩
      ∧ filled.length = e.dimension - integral_count (kinds slices)
      ∧ ∀ i, i < e.dimension - integral_count (kinds slices) →
          filled[i]? = xview.shape_entry squeeze_size
            (⟨addr, e, slices, []⟩ : xview α σ) i
          ∧ ∃ extent, filled[i]? = some extent := by
  have hdim : xview.dimension (⟨addr, e, slices, []⟩ : xview α σ)
      = e.dimension - integral_count (kinds slices) :=
    size_sub_exact _ _ hk hd
  have hentry : ∀ j, 0 ≤ j → j < 0 + (e.dimension - integral_count (kinds slices)) →
      xview.shape_entry squeeze_size (⟨addr, e, slices, []⟩ : xview α σ) j
        = some ((xview.shape_entry squeeze_size
            (⟨addr, e, slices, []⟩ : xview α σ) j).getD 0) := by
    intro j _ hj
    have h := shape_entry_some squeeze_size (⟨addr, e, slices, []⟩ : xview α σ) j
      hwf hd hk (show j < e.dimension - integral_count (kinds slices) by omega)
    dsimp only at h
    by_cases hlt : integral_skip (kinds slices) j < slices.length
    · obtain ⟨sl, _, hs⟩ := h.1 hlt
      rw [hs]; rfl
    · obtain ⟨extent, _, hs⟩ := h.2 (by omega)
      rw [hs]; rfl
  obtain ⟨filled, hfill, hlen, hnew, _⟩ :=
    fill_shape_spec squeeze_size (⟨addr, e, slices, []⟩ : xview α σ) _
      (e.dimension - integral_count (kinds slices)) 0
      (List.replicate (e.dimension - integral_count (kinds slices)) 0)
      (by simp) hentry
  refine ⟨filled, ctor_eq_of_fill squeeze_size addr e slices _ filled hdim hfill,
    by simpa using hlen, ?_⟩
  intro i hi
  have hv := hnew i (Nat.zero_le _) (by omega)
  have he := hentry i (Nat.zero_le _) (by omega)
  exact ⟨by rw [hv, ← he], _, hv⟩

theorem skip_position_of_ranged (S : List Bool) (p : Nat) (hp : S[p]? = some false) :
    skip_position S (p - integral_count_before S p) = p := by
  have hlt : p < S.length := by
    by_contra h
    rw [List.getElem?_eq_none (by omega)] at hp
    cases hp
  have hat : noninteger_at S p = true := by
    unfold noninteger_at
    rw [List.getD_eq_getElem?_getD, hp]; rfl
  have hb := noninteger_before_add_count S p
  have ht := integral_count_impl_take S p (by omega)
  have hbefore : noninteger_before S p = p - integral_count_before S p := by
    unfold integral_count_before
    omega
  exact (skip_position_unique S _ p hat hbefore).symm

theorem integral_skip_of_ranged (S : List Bool) (p : Nat) (hlt : p < SIZE_MOD)
    (hp : S[p]? = some false) :
    integral_skip S (p - integral_count_before S p) = p := by
  rw [integral_skip_mod S _ (by omega), skip_position_of_ranged S p hp]
  exact Nat.mod_eq_of_lt hlt

/-- C18, as stated, evaluated on the code: for the list of the single integral
slot and `i = 2^64 - 1`, `integral_skip(i)` wraps to 0, which is at most `N`,
and `integral_skip(i) - integral_count_before(integral_skip(i))` is 0, not
`i`. -/
theorem resolver_directions_inverse_fails :
    integral_skip [true] 18446744073709551615 = 0
    ∧ integral_skip [true] 18446744073709551615 ≤ [true].length
    ∧ integral_skip [true] 18446744073709551615
        - integral_count_before [true] (integral_skip [true] 18446744073709551615)
        = 0
    ∧ integral_skip [true] 18446744073709551615
        - integral_count_before [true] (integral_skip [true] 18446744073709551615)
        ≠ 18446744073709551615 := by
  decide

/-- C18, amended: the two directions of the resolver undo each other inside
the selector list: `integral_skip(i) - integral_count_before(integral_skip(i))`
is `i` whenever `i + integral_count() < 2^64`, so that no addition of
`integral_skip` wraps, and `integral_skip(i) <= N`; and
`integral_skip(p - integral_count_before(p))` is `p` for every slot `p < N`,
`p` a `std::size_t` value, that is not integral; hence, for a view that the constructor returns over a
base with at least as many axes as there are selectors, the caller argument
that `operator()` passes to the ranged slot `p` is the one of the view axis
`p - integral_count_before(p)`, and the cached extent of that view axis is the
size of the slot. -/
theorem resolver_directions_inverse :
    (∀ (S : List Bool) (i : Nat), i + integral_count S < SIZE_MOD →
      integral_skip S i ≤ S.length →
      integral_skip S i - integral_count_before S (integral_skip S i) = i)
    ∧ (∀ (S : List Bool) (p : Nat), p < SIZE_MOD → S[p]? = some false →
      integral_skip S (p - integral_count_before S p) = p)
    ∧ (∀ (α σ : Type) (squeeze_size addr : Nat) (e : Expression α σ)
        (slices : List Selector),
        e.shape.length = e.dimension → e.dimension < SIZE_MOD →
        slices.length ≤ e.dimension →
        ∃ v, xview.ctor squeeze_size addr e slices = some v
          ∧ ∀ (p : Nat) (sl : Slice) (args : List Nat),
              slices[p]? = some (Selector.ranged sl) →
              args.length = v.dimension →
              ∃ a, args[p - integral_count_before (kinds slices) p]? = some a
                ∧ v.index p args = some (sl.call a)
                ∧ v.shape[p - integral_count_before (kinds slices) p]?
                    = some sl.size) := by
  refine ⟨?_, integral_skip_of_ranged, ?_⟩
  · intro S i hb hle
    rw [integral_count_eq_count] at hb
    rw [integral_skip_exact S i hb] at hle ⊢
    have h1 := skip_position_count S i
    have h2 := integral_count_impl_take S (skip_position S i) hle
    unfold integral_count_before
    omega
  · intro α σ squeeze_size addr e slices hwf hd hN
    have hic := integral_count_le_length (kinds slices)
    rw [kinds_length] at hic
    have hk : integral_count (kinds slices) ≤ e.dimension := by omega
    obtain ⟨filled, hctor, hlen, hfilled⟩ :=
      ctor_entries squeeze_size addr e slices hwf hd hk
    refine ⟨_, hctor, ?_⟩
    intro p sl args hsl hargs
    have hdim : xview.dimension (⟨addr, e, slices, filled⟩ : xview α σ)
        = e.dimension - integral_count (kinds slices) := size_sub_exact _ _ hk hd
    rw [hdim] at hargs
    have hkind : (kinds slices)[p]? = some false := (kinds_ranged slices p).2 ⟨sl, hsl⟩
    have hlt := ranged_argument_lt (kinds slices) p hkind
    rw [kinds_length] at hlt
    have hp : p < slices.length := by
      by_contra h
      rw [List.getElem?_eq_none (by omega)] at hsl
      cases hsl
    have hj : p - integral_count_before (kinds slices) p < args.length := by
      unfold integral_count_before
      unfold integral_count at hargs hk
      rw [kinds_length] at hargs hk
      omega
    have hskip := integral_skip_of_ranged (kinds slices) p (by omega) hkind
    refine ⟨args[p - integral_count_before (kinds slices) p],
      List.getElem?_eq_getElem hj, ?_, ?_⟩
    · simp [xview.index, hp, hsl, xview.sliced_access, argument,
        List.getElem?_eq_getElem hj]
    · show filled[p - integral_count_before (kinds slices) p]? = some sl.size
      rw [(hfilled _ (by omega)).1]
      simp [xview.shape_entry, hskip, hp, apply, hsl, get_size]

/-- Witness of C18: the list (integral, ranged, integral, ranged), and the
view with selectors `(1, range(0, 4))` over the dense array of shape
`(3, 4)`. -/
theorem resolver_directions_inverse_witness :
    (1 + integral_count [true, false, true, false] < SIZE_MOD
      ∧ integral_skip [true, false, true, false] 1 ≤ [true, false, true, false].length
      ∧ integral_skip [true, false, true, false] 1
          - integral_count_before [true, false, true, false]
              (integral_skip [true, false, true, false] 1) = 1)
    ∧ ((3 : Nat) < SIZE_MOD ∧ [true, false, true, false][3]? = some false
      ∧ integral_skip [true, false, true, false]
          (3 - integral_count_before [true, false, true, false] 3) = 3)
    ∧ ((dense_array [3, 4] (id : List Nat → List Nat)).shape.length
          = (dense_array [3, 4] (id : List Nat → List Nat)).dimension
      ∧ (dense_array [3, 4] (id : List Nat → List Nat)).dimension < SIZE_MOD
      ∧ [Selector.integral 1, Selector.ranged (xrange 0 4)].length
          ≤ (dense_array [3, 4] (id : List Nat → List Nat)).dimension
      ∧ ∃ v, xview.ctor 1 0 (dense_array [3, 4] (id : List Nat → List Nat))
          [Selector.integral 1, Selector.ranged (xrange 0 4)] = some v) :=
  ⟨⟨by decide, by decide,
      resolver_directions_inverse.1 [true, false, true, false] 1 (by decide) (by decide)⟩,
    ⟨by decide, by decide,
      resolver_directions_inverse.2.1 [true, false, true, false] 3 (by decide)
        (by decide)⟩,
    ⟨by decide, by decide, by decide,
      (resolver_directions_inverse.2.2 (List Nat) Cursor 1 0
        (dense_array [3, 4] (id : List Nat → List Nat))
        [Selector.integral 1, Selector.ranged (xrange 0 4)]
        (by decide) (by decide) (by decide)).imp (fun _ h => h.1)⟩⟩

/-- C20: with no more integral selectors than base axes, for every axis
`i < dimension()` of the loop of the constructor the index `integral_skip(i)`,
when it is at or past the end of the selector list, is below
`base.dimension()`, and the write index `i` is below the length of the resized
cached shape; over a base whose shape has one extent for each axis every read
and every write of the loop therefore has a result, and the constructor
returns a view. -/
theorem ctor_stays_in_bounds {α σ : Type} (squeeze_size addr : Nat)
    (e : Expression α σ) (slices : List Selector)
    (hd : e.dimension < SIZE_MOD)
    (hk : integral_count (kinds slices) ≤ e.dimension) :
    (∀ i, i < xview.dimension (⟨addr, e, slices, []⟩ : xview α σ) →
      (slices.length ≤ integral_skip (kinds slices) i →
        integral_skip (kinds slices) i < e.dimension)
      ∧ i < (List.replicate
          (xview.dimension (⟨addr, e, slices, []⟩ : xview α σ)) 0).length)
    ∧ (e.shape.length = e.dimension →
        (∀ i, i < xview.dimension (⟨addr, e, slices, []⟩ : xview α σ) →
          ∃ extent, xview.shape_entry squeeze_size
            (⟨addr, e, slices, []⟩ : xview α σ) i = some extent)
        ∧ ∃ v, xview.ctor squeeze_size addr e slices = some v) := by
  have hdim : xview.dimension (⟨addr, e, slices, []⟩ : xview α σ)
      = e.dimension - integral_count (kinds slices) :=
    size_sub_exact _ _ hk hd
  constructor
  · intro i hi
    rw [hdim] at hi
    constructor
    · intro _
      have hle := integral_skip_le (kinds slices) i (by omega)
      rw [← integral_count_eq_count] at hle
      omega
    · rw [List.length_replicate, hdim]
      exact hi
  · intro hwf
    obtain ⟨filled, hctor, _, hfilled⟩ :=
      ctor_entries squeeze_size addr e slices hwf hd hk
    refine ⟨?_, _, hctor⟩
    intro i hi
    rw [hdim] at hi
    obtain ⟨h1, extent, h2⟩ := hfilled i hi
    exact ⟨extent, by rw [← h1, h2]⟩

/-- Witness of C20: the selectors `(1, range(0, 4))` over the dense array of
shape `(3, 4)`. -/
theorem ctor_stays_in_bounds_witness :
    (dense_array [3, 4] (id : List Nat → List Nat)).dimension < SIZE_MOD
    ∧ integral_count (kinds [Selector.integral 1, Selector.ranged (xrange 0 4)])
        ≤ (dense_array [3, 4] (id : List Nat → List Nat)).dimension
    ∧ (dense_array [3, 4] (id : List Nat → List Nat)).shape.length
        = (dense_array [3, 4] (id : List Nat → List Nat)).dimension
    ∧ ∃ v, xview.ctor 1 0 (dense_array [3, 4] (id : List Nat → List Nat))
        [Selector.integral 1, Selector.ranged (xrange 0 4)] = some v :=
  ⟨by decide, by decide, by decide,
    ((ctor_stays_in_bounds 1 0 (dense_array [3, 4] (id : List Nat → List Nat))
      [Selector.integral 1, Selector.ranged (xrange 0 4)]
      (by decide) (by decide)).2 (by decide)).2⟩

/-- The constructor builds `two_range_view`. -/
theorem two_range_view_ctor (squeeze_size : Nat) :
    xview.ctor squeeze_size 0 (dense_array [6, 3] id)
      [Selector.ranged stride_two, Selector.ranged (xrange 0 3)]
      = some two_range_view := by
  apply ctor_eq_of_fill squeeze_size 0 _ _ 2 [3, 3] (by decide)
  rfl

/-- C15, evaluated on the code: the stepper of the view with selectors
`(stride_two, range(0, 3))`, which the constructor builds over the dense array
of shape `(6, 3)`, for a shape of three axes has offset 1, and
`step(1, 1)` moves the cursor of the base along the base axis
`integral_skip(1) = 1` by the step multiplier 1 of the slot 1, not along the
base axis `integral_skip(1 - 1) = 0` by the step multiplier 2 of the slot 0;
`step_back(1, 1)` and `reset(1)` resolve the same slot 1.  For the view with
the single ranged selector `stride_two` and offset 1, `step(1, 1)` asks for the
slot 1, which the selector list does not have. -/
theorem step_ignores_offset :
    xview.ctor 1 0 (dense_array [6, 3] id)
        [Selector.ranged stride_two, Selector.ranged (xrange 0 3)]
      = some two_range_view
    ∧ (two_range_view.stepper_begin [4, 3, 3]).m_offset = 1
    ∧ ((two_range_view.stepper_begin [4, 3, 3]).step 1 1).map (fun t => t.m_it.pos)
        = some [0, 1]
    ∧ ((two_range_view.stepper_begin [4, 3, 3]).step_back 1 1).map
        (fun t => t.m_it.pos) = some [0, -1]
    ∧ ((two_range_view.stepper_begin [4, 3, 3]).reset 1 1).map (fun t => t.m_it.pos)
        = some [0, -3]
    ∧ integral_skip (kinds two_range_view.m_slices) 1 = 1
    ∧ integral_skip (kinds two_range_view.m_slices) (1 - 1) = 0
    ∧ (strided_view.stepper_begin [4, 3]).m_offset = 1
    ∧ ((strided_view.stepper_begin [4, 3]).step 1 1).isNone = true := by
  refine ⟨two_range_view_ctor 1, by decide, by decide, by decide, by decide,
    by decide, by decide, by decide, by decide⟩

end xt
